import Mathlib

/-!
Verification of the xrpc-server request-dispatch engine.

Each section shallowly embeds one part of the TypeScript source
(`src/src/...`) as executable Lean definitions and proves the spec's
claims about it.  JavaScript machine integers that stay in the safe
range are modelled as `Int`/`Nat`; JSON numbers as `Rat`; fallible code
returns `Except`/`Option`.
-/

namespace Nsid

/-- The character test of the scan loop in `parseUrlNsid`
(src/src/util.ts): char codes 48-57, 65-90 or 97-122. -/
def isAlphaNumChar (c : Char) : Bool :=
  decide ((48 ≤ c.toNat ∧ c.toNat ≤ 57) ∨ (65 ≤ c.toNat ∧ c.toNat ≤ 90) ∨
    (97 ≤ c.toNat ∧ c.toNat ≤ 122))

/-- The scan loop of `parseUrlNsid` (src/src/util.ts).  `acc` holds the
NSID characters consumed so far in reverse; `req` is the source's
`alphaNumRequired` flag.  The source's post-loop `alphaNumRequired`
check is inlined at each loop exit (break at `/` or `?`, or end of
string), which throws the same `InvalidRequest("invalid xrpc path")`. -/
def scanNsid : List Char → List Char → Bool → Except String (List Char)
  | [], acc, req =>
    if req then .error "invalid xrpc path" else .ok acc.reverse
  | c :: rest, acc, req =>
    if isAlphaNumChar c then
      scanNsid rest (c :: acc) false
    else if c = '-' ∨ c = '.' then
      if req then .error "invalid xrpc path" else scanNsid rest (c :: acc) true
    else if c = '/' then
      -- allow a trailing slash: next char is end-of-string or '?'
      if rest.isEmpty ∨ rest.head? = some '?' then
        if req then .error "invalid xrpc path" else .ok acc.reverse
      else .error "invalid xrpc path"
    else if c = '?' then
      if req then .error "invalid xrpc path" else .ok acc.reverse
    else .error "invalid xrpc path"

/-- `parseUrlNsid` (src/src/util.ts, lines 367-434) at the character
level: the `/xrpc/` prefix check (path length over six bytes and the
six leading bytes), the scan from byte 6, and the final
`curr - startOfNsid < 2` length guard. -/
def parseUrlNsidData (cs : List Char) : Except String (List Char) :=
  match cs with
  | '/' :: 'x' :: 'r' :: 'p' :: 'c' :: '/' :: rest =>
    if rest.isEmpty then .error "invalid xrpc path"
    else
      match scanNsid rest [] true with
      | .error e => .error e
      | .ok nsid =>
        if nsid.length < 2 then .error "invalid xrpc path"
        else .ok nsid
  | _ => .error "invalid xrpc path"

/-- `parseUrlNsid` (src/src/util.ts, lines 367-434) on a path string.
The source first tries `new URL(url)` and falls back to treating the
input as a path when URL parsing fails; for the rooted paths considered
here that step is the identity, so the embedding starts at the
`/xrpc/` prefix check. -/
def parseUrlNsid (path : String) : Except String String :=
  (parseUrlNsidData path.data).map String.mk

/-- A character the NSID alphabet admits: alphanumeric, hyphen or dot. -/
def nsidChar (c : Char) : Bool :=
  isAlphaNumChar c || c = '-' || c = '.'

/-- What the scan loop accepts from a given `alphaNumRequired` state:
every hyphen or dot must be preceded by an alphanumeric, and the string
must not end in a separator (nor be empty when starting from
`req = true`). -/
def goodScan : List Char → Bool → Bool
  | [], req => !req
  | c :: rest, req =>
    if isAlphaNumChar c then goodScan rest false
    else if c = '-' ∨ c = '.' then !req && goodScan rest true
    else false

/-- The exact NSID-candidate language `parseUrlNsid` accepts: a
well-separated scan plus the minimum length of two characters. -/
def acceptedNsid (s : String) : Bool :=
  goodScan s.data true && decide (2 ≤ s.data.length)

/-- Split a character list at dots (auxiliary for the spec's NSID
grammar, written from the claim's wording). -/
def splitDot (cs : List Char) : List (List Char) :=
  cs.foldr
    (fun c acc =>
      if c = '.' then [] :: acc
      else
        match acc with
        | [] => [[c]]
        | g :: gs => (c :: g) :: gs)
    [[]]

/-- The claim's NSID grammar: at least two dot-separated segments of
ASCII alphanumerics with interior hyphens, no leading or trailing dot
or hyphen.  This definition follows the claim's words, to be compared
with what `parseUrlNsid` actually accepts. -/
def specValidNsid (s : String) : Bool :=
  let segs := splitDot s.data
  decide (2 ≤ segs.length) &&
    segs.all fun seg =>
      !seg.isEmpty &&
      seg.all (fun c => isAlphaNumChar c || c = '-') &&
      (match seg.head? with
       | some c => isAlphaNumChar c
       | none => false) &&
      (match seg.getLast? with
       | some c => isAlphaNumChar c
       | none => false)

example : parseUrlNsid "/xrpc/io.example.ping" = .ok "io.example.ping" := by
  rfl

example : parseUrlNsid "/xrpc/ab" = .ok "ab" := by rfl

example : specValidNsid "ab" = false := by decide

example : parseUrlNsid "/xrpc/io.example.ping/?x=1" = .ok "io.example.ping" := by
  rfl

example : parseUrlNsid "/xrpc/io..ping" = .error "invalid xrpc path" := by rfl

/-- The scan consumes an empty remainder according to `alphaNumRequired`. -/
theorem scanNsid_term_nil (acc : List Char) (req : Bool) :
    scanNsid [] acc req =
      if req then .error "invalid xrpc path" else .ok acc.reverse := rfl

/-- A lone trailing slash exits the scan like end-of-string. -/
theorem scanNsid_term_slash (acc : List Char) (req : Bool) :
    scanNsid ['/'] acc req =
      if req then .error "invalid xrpc path" else .ok acc.reverse := by
  cases req <;> rfl

/-- A query marker exits the scan like end-of-string. -/
theorem scanNsid_term_query (q : List Char) (acc : List Char) (req : Bool) :
    scanNsid ('?' :: q) acc req =
      if req then .error "invalid xrpc path" else .ok acc.reverse := by
  cases req <;> rfl

/-- A trailing slash followed by a query exits the scan. -/
theorem scanNsid_term_slashQuery (q : List Char) (acc : List Char)
    (req : Bool) :
    scanNsid ('/' :: '?' :: q) acc req =
      if req then .error "invalid xrpc path" else .ok acc.reverse := by
  cases req <;> rfl

/-- Core scan lemma: on NSID-alphabet characters followed by a
terminator, the scan succeeds exactly when `goodScan` accepts, and it
returns the accumulated characters followed by the scanned ones. -/
theorem scanNsid_append (term : List Char)
    (hterm : ∀ acc req, scanNsid term acc req =
      if req then .error "invalid xrpc path" else .ok acc.reverse) :
    ∀ (cs acc : List Char) (req : Bool), (∀ c ∈ cs, nsidChar c = true) →
      scanNsid (cs ++ term) acc req =
        if goodScan cs req then .ok (acc.reverse ++ cs)
        else .error "invalid xrpc path"
  | [], acc, req, _ => by
    cases req <;> simpa [goodScan] using hterm acc _
  | c :: cs, acc, req, hcs => by
    have hc : nsidChar c = true := hcs c (List.mem_cons_self c cs)
    have hcs' : ∀ x ∈ cs, nsidChar x = true := fun x hx =>
      hcs x (List.mem_cons_of_mem c hx)
    by_cases halnum : isAlphaNumChar c = true
    · rw [List.cons_append]
      rw [show scanNsid (c :: (cs ++ term)) acc req =
        scanNsid (cs ++ term) (c :: acc) false by
          simp [scanNsid, halnum]]
      rw [scanNsid_append term hterm cs (c :: acc) false hcs']
      simp [goodScan, halnum, List.append_assoc]
    · have hsep : c = '-' ∨ c = '.' := by
        simp [nsidChar, halnum] at hc
        rcases hc with h | h
        · exact Or.inl h
        · exact Or.inr h
      rw [List.cons_append]
      cases req with
      | true =>
        have : scanNsid (c :: (cs ++ term)) acc true =
            .error "invalid xrpc path" := by
          simp [scanNsid, halnum, hsep]
        rw [this]
        simp [goodScan, halnum, hsep]
      | false =>
        have : scanNsid (c :: (cs ++ term)) acc false =
            scanNsid (cs ++ term) (c :: acc) true := by
          simp [scanNsid, halnum, hsep]
        rw [this, scanNsid_append term hterm cs (c :: acc) true hcs']
        simp [goodScan, halnum, hsep, List.append_assoc]

/-- Character-level version of the amended parsing claim. -/
theorem parseUrlNsidData_eq (cs term : List Char)
    (hcs : ∀ c ∈ cs, nsidChar c = true)
    (hterm : ∀ acc req, scanNsid term acc req =
      if req then .error "invalid xrpc path" else .ok acc.reverse) :
    parseUrlNsidData ('/' :: 'x' :: 'r' :: 'p' :: 'c' :: '/' :: (cs ++ term)) =
      if goodScan cs true && decide (2 ≤ cs.length) then .ok cs
      else .error "invalid xrpc path" := by
  by_cases hne : cs ++ term = []
  · rcases List.append_eq_nil.mp hne with ⟨h1, h2⟩
    subst h1; subst h2
    rfl
  · have hemp : (cs ++ term).isEmpty = false := by
      cases h : cs ++ term with
      | nil => exact absurd h hne
      | cons a l => rfl
    rw [show parseUrlNsidData
        ('/' :: 'x' :: 'r' :: 'p' :: 'c' :: '/' :: (cs ++ term)) =
        (if (cs ++ term).isEmpty then .error "invalid xrpc path" else
          match scanNsid (cs ++ term) [] true with
          | .error e => .error e
          | .ok nsid =>
            if nsid.length < 2 then .error "invalid xrpc path"
            else .ok nsid) from rfl]
    rw [hemp]
    rw [scanNsid_append term hterm cs [] true hcs]
    by_cases hg : goodScan cs true
    · simp only [hg, if_true, List.reverse_nil, List.nil_append, Bool.true_and]
      by_cases hlen : 2 ≤ cs.length
      · simp [hlen, Nat.not_lt.mpr hlen]
      · have h2 : cs.length < 2 := Nat.not_le.mp hlen
        simp [hlen, h2]
    · simp [hg]

/-- C2 (counterexample): the string "ab" has a single dot-separated
segment, hence is not a valid NSID by the claim's grammar, yet
`parseUrlNsid` accepts `/xrpc/ab` and returns "ab" instead of raising
`InvalidRequest` — the source only requires two characters
("A domain name consists of minimum two characters"), not two
segments. -/
theorem c2_single_segment_accepted :
    specValidNsid "ab" = false ∧ parseUrlNsid "/xrpc/ab" = .ok "ab" :=
  ⟨by decide, by rfl⟩

/-- C2 (amended): for every candidate string `s` over the NSID
alphabet (alphanumerics, hyphen, dot) and every permitted suffix
(nothing, a trailing slash, a query string, or both),
`parseUrlNsid ("/xrpc/" ++ s ++ suffix)` returns `s` exactly when `s`
is at least two characters long, starts with an alphanumeric, and
every hyphen or dot is immediately preceded and followed by an
alphanumeric; otherwise it raises `InvalidRequest("invalid xrpc
path")`.  At least two dot-separated segments are not required. -/
theorem c2_parseUrlNsid_amended (s t : String)
    (hs : ∀ c ∈ s.data, nsidChar c = true)
    (ht : t = "" ∨ t = "/" ∨ (∃ q : String, t = "?" ++ q) ∨
      (∃ q : String, t = "/?" ++ q)) :
    parseUrlNsid ("/xrpc/" ++ s ++ t) =
      if acceptedNsid s then .ok s else .error "invalid xrpc path" := by
  have hterm : ∀ acc req, scanNsid t.data acc req =
      if req then .error "invalid xrpc path" else .ok acc.reverse := by
    rcases ht with h | h | ⟨q, h⟩ | ⟨q, h⟩
    · subst h; exact scanNsid_term_nil
    · subst h; exact scanNsid_term_slash
    · subst h
      have hd : ("?" ++ q).data = '?' :: q.data := by
        rw [String.data_append]; rfl
      rw [hd]; exact scanNsid_term_query q.data
    · subst h
      have hd : ("/?" ++ q).data = '/' :: '?' :: q.data := by
        rw [String.data_append]; rfl
      rw [hd]; exact scanNsid_term_slashQuery q.data
  obtain ⟨sl⟩ := s
  have hdata : ("/xrpc/" ++ String.mk sl ++ t).data =
      '/' :: 'x' :: 'r' :: 'p' :: 'c' :: '/' :: (sl ++ t.data) := by
    rw [String.data_append, String.data_append]
    rfl
  unfold parseUrlNsid
  rw [hdata, parseUrlNsidData_eq sl t.data hs hterm]
  have hAcc : acceptedNsid ⟨sl⟩ = (goodScan sl true && decide (2 ≤ sl.length)) :=
    rfl
  rw [hAcc]
  by_cases hA : (goodScan sl true && decide (2 ≤ sl.length)) = true
  · rw [if_pos hA, if_pos hA]; rfl
  · rw [if_neg hA, if_neg hA]; rfl

/-- Witness for `c2_parseUrlNsid_amended` at `s = "io.example.ping"`,
`suffix = ""`. -/
theorem c2_parseUrlNsid_amended_witness :
    (∀ c ∈ ("io.example.ping" : String).data, nsidChar c = true) ∧
      parseUrlNsid "/xrpc/io.example.ping" =
        (if acceptedNsid "io.example.ping" then .ok "io.example.ping"
         else .error "invalid xrpc path") := by
  refine ⟨by decide, ?_⟩
  have h := c2_parseUrlNsid_amended "io.example.ping" "" (by decide)
    (Or.inl rfl)
  have he : "/xrpc/" ++ "io.example.ping" ++ "" = "/xrpc/io.example.ping" :=
    rfl
  rw [he] at h
  exact h

end Nsid

namespace Frames

/-- CBOR data model for frame headers and bodies.  Maps are restricted
to string keys, which is what decoding a CBOR item into a JavaScript
object and re-encoding it produces. -/
inductive CborValue where
  | int (i : Int)
  | str (s : String)
  | boolean (b : Bool)
  | null
  | bytes (bs : List Nat)
  | arr (vs : List CborValue)
  | map (kvs : List (String × CborValue))

/-- The body shape of an `ErrorFrame` (`ErrorFrameBody` in
src/src/stream/types.ts): an error code and an optional message. -/
structure ErrorBody where
  error : String
  message : Option String

/-- A frame (src/src/stream/frames.ts): a `MessageFrame` with optional
type discriminator `t` and an arbitrary body, or an `ErrorFrame`. -/
inductive FrameE where
  | message (t : Option String) (body : CborValue)
  | error (body : ErrorBody)

/-- The header object each frame constructor builds
(src/src/stream/frames.ts): `{op: 1}` or `{op: 1, t}` for messages,
`{op: -1}` for errors. -/
def headerCbor : FrameE → CborValue
  | .message none _ => .map [("op", .int 1)]
  | .message (some t) _ => .map [("op", .int 1), ("t", .str t)]
  | .error _ => .map [("op", .int (-1))]

/-- The body CBOR item of a frame: the message body as-is, or the
error body object `{error, message?}`. -/
def bodyCbor : FrameE → CborValue
  | .message _ b => b
  | .error eb =>
    .map (("error", .str eb.error) ::
      (match eb.message with
       | some m => [("message", .str m)]
       | none => []))

/-- `Frame.toBytes` (src/src/stream/frames.ts) at CBOR data-item
granularity.  Modelled from the spec: `cborEncode` and
`cborDecodeMulti` belong to the external `@atproto/common` package, so
a wire byte string is abstracted as the sequence of CBOR data items it
decodes to; the concatenation of the encoded header and encoded body
is then the two-item sequence. -/
def toItems (f : FrameE) : List CborValue := [headerCbor f, bodyCbor f]

/-- First value stored under a key in a decoded CBOR map, i.e. plain
JavaScript property access. -/
def lookupKey (kvs : List (String × CborValue)) (k : String) :
    Option CborValue :=
  (kvs.find? fun p => p.1 == k).map Prod.snd

/-- The `messageFrameHeader` zod schema (src/src/stream/types.ts):
a strict object with `op` literally `1` and an optional string `t`.
Returns the parsed `t` on success. -/
def parseMessageFrameHeader (v : CborValue) : Option (Option String) :=
  match v with
  | .map kvs =>
    if kvs.all (fun p => p.1 == "op" || p.1 == "t") then
      match lookupKey kvs "op" with
      | some (.int 1) =>
        match lookupKey kvs "t" with
        | none => some none
        | some (.str t) => some (some t)
        | some _ => none
      | _ => none
    else none
  | _ => none

/-- The `errorFrameHeader` zod schema (src/src/stream/types.ts): a
strict object with `op` literally `-1`. -/
def parseErrorFrameHeader (v : CborValue) : Option Unit :=
  match v with
  | .map kvs =>
    if kvs.all (fun p => p.1 == "op") then
      match lookupKey kvs "op" with
      | some (.int (-1)) => some ()
      | _ => none
    else none
  | _ => none

/-- A parsed frame header. -/
inductive HeaderE where
  | message (t : Option String)
  | errorH

/-- The `frameHeader` zod union (src/src/stream/types.ts): message
header first, then error header. -/
def parseFrameHeader (v : CborValue) : Option HeaderE :=
  match parseMessageFrameHeader v with
  | some t => some (.message t)
  | none =>
    match parseErrorFrameHeader v with
    | some _ => some .errorH
    | none => none

/-- The `errorFrameBody` zod schema (src/src/stream/types.ts): a
strict object with a string `error` and an optional string `message`. -/
def parseErrorFrameBody (v : CborValue) : Option ErrorBody :=
  match v with
  | .map kvs =>
    if kvs.all (fun p => p.1 == "error" || p.1 == "message") then
      match lookupKey kvs "error" with
      | some (.str e) =>
        match lookupKey kvs "message" with
        | none => some ⟨e, none⟩
        | some (.str m) => some ⟨e, some m⟩
        | some _ => none
      | _ => none
    else none
  | _ => none

/-- `Frame.fromBytes` (src/src/stream/frames.ts) on the decoded item
sequence: at most two items, the first a valid frame header, the
second present as the body; error frames additionally validate the
body shape. -/
def fromItems (decoded : List CborValue) : Except String FrameE :=
  if decoded.length > 2 then .error "Too many CBOR data items in frame"
  else
    match decoded.head? with
    | none => .error "Invalid frame header"
    | some h =>
      match parseFrameHeader h with
      | none => .error "Invalid frame header"
      | some hdr =>
        match decoded[1]? with
        | none => .error "Missing frame body"
        | some body =>
          match hdr with
          | .message t => .ok (.message t body)
          | .errorH =>
            match parseErrorFrameBody body with
            | none => .error "Invalid error frame body"
            | some eb => .ok (.error eb)

/-- C3: for every frame — a message frame with optional type
discriminator and arbitrary body, or an error frame with
`{error, message?}` body — decoding the serialized two-item sequence
returns a frame equal to the original by value: same op, same `t`
(present exactly when present originally), same body. -/
theorem c3_frame_roundtrip (f : FrameE) : fromItems (toItems f) = .ok f := by
  cases f with
  | message t body => cases t <;> rfl
  | error eb =>
    obtain ⟨e, m⟩ := eb
    cases m <;> rfl

end Frames

namespace RateLimit

/-- `RateLimiterStatus` (src/src/types.ts). -/
structure RateLimiterStatus where
  limit : Int
  duration : Int
  remainingPoints : Int
  msBeforeNext : Int
  consumedPoints : Int
  isFirstInDuration : Bool
  deriving DecidableEq

/-- A `RateLimiterRes` of the backing `rate-limiter-flexible` store:
the fields `formatLimiterStatus` reads off it. -/
structure RLRes where
  remainingPoints : Int
  msBeforeNext : Int
  consumedPoints : Int
  isFirstInDuration : Bool
  deriving DecidableEq

/-- The slice of the request context `RateLimiter.consume` reads:
request-header lookup (`ctx.c.req.header(...)`). -/
structure Ctx where
  header : String → Option String

/-- JavaScript `s.split(",")[0]`: the prefix before the first comma. -/
def splitHeadComma (s : String) : String :=
  String.mk (s.data.takeWhile fun c => c ≠ ',')

/-- JavaScript `a || b` on an optional string: `b` when `a` is absent
or empty (falsy), `a` otherwise. -/
def jsOrOptStr (a b : Option String) : Option String :=
  match a with
  | some s => if s = "" then b else some s
  | none => b

/-- Truthiness of an optional string. -/
def jsTruthyStr : Option String → Bool
  | some s => decide (s ≠ "")
  | none => false

/-- The default `calcKey` (src/src/rate-limiter.ts, bottom): first
`x-forwarded-for` element, else `x-real-ip`, else the same chain again
(falling through to `null`). -/
def defaultKey (ctx : Ctx) : Option String :=
  let fwd := (ctx.header "x-forwarded-for").map splitHeadComma
  if jsTruthyStr fwd then fwd
  else
    let realIp := ctx.header "x-real-ip"
    if jsTruthyStr realIp then realIp
    else jsOrOptStr fwd (jsOrOptStr realIp none)

/-- The default `calcPoints` (src/src/rate-limiter.ts): always 1. -/
def defaultPoints (_ : Ctx) : Int := 1

/-- `RateLimiterOpts` (src/src/rate-limiter.ts). -/
structure RLOpts where
  keyPrefix : String
  durationMs : Int
  points : Int
  bypassSecret : Option String := none
  bypassIps : Option (List String) := none
  calcKey : Option (Ctx → Option String) := none
  calcPoints : Option (Ctx → Int) := none
  failClosed : Option Bool := none

/-- The private state of a constructed `RateLimiter`. -/
structure RLState where
  keyPrefix : String
  duration : Int
  points : Int
  bypassSecret : Option String
  bypassIps : Option (List String)
  failClosed : Option Bool
  calcKey : Ctx → Option String
  calcPoints : Ctx → Int

/-- The `RateLimiter` constructor (src/src/rate-limiter.ts, lines
63-69), combined with the store construction of `RateLimiter.memory`
(`duration = Math.floor(durationMs / 1000)`).  The constructor assigns
`limiter`, `bypassSecret`, `bypassIps`, `calcKey` (default
`defaultKey`) and `calcPoints` (default `defaultPoints`); it never
assigns `this.failClosed`, which therefore remains `undefined` whatever
`opts.failClosed` held. -/
def mkRateLimiter (opts : RLOpts) : RLState where
  keyPrefix := opts.keyPrefix
  duration := opts.durationMs / 1000
  points := opts.points
  bypassSecret := opts.bypassSecret
  bypassIps := opts.bypassIps
  failClosed := none
  calcKey := opts.calcKey.getD defaultKey
  calcPoints := opts.calcPoints.getD defaultPoints

/-- Behaviour of the backing store's `consume(key, points)` call: it
resolves with a `RateLimiterRes`, rejects with a `RateLimiterRes`
(limit exceeded), or rejects with any other error (modelled by a
string tag). -/
inductive StoreOutcome where
  | ok (res : RLRes)
  | throwRes (res : RLRes)
  | throwErr (e : String)

/-- `formatLimiterStatus` (src/src/rate-limiter.ts). -/
def formatLimiterStatus (st : RLState) (res : RLRes) : RateLimiterStatus where
  limit := st.points
  duration := st.duration
  remainingPoints := res.remainingPoints
  msBeforeNext := res.msBeforeNext
  consumedPoints := res.consumedPoints
  isFirstInDuration := res.isFirstInDuration

/-- A successful `consume` value: a status, or a
`RateLimitExceededError` carrying a status. -/
inductive StatusOrExceeded where
  | status (s : RateLimiterStatus)
  | exceededE (s : RateLimiterStatus)
  deriving DecidableEq

/-- Outcome of `RateLimiter.consume`: a returned value (the source's
`RateLimiterStatus | RateLimitExceededError | null`) together with
whether the failure logger ran, or a propagated throw. -/
inductive ConsumeOutcome where
  | value (v : Option StatusOrExceeded) (logged : Bool)
  | thrown (e : String)
  deriving DecidableEq

/-- `RateLimiter.consume` (src/src/rate-limiter.ts, lines 90-139):
bypass secret, bypass IPs, key and points computation with per-call
overrides, then the store call; a `RateLimiterRes` rejection becomes a
`RateLimitExceededError`, any other rejection either propagates (when
`this.failClosed` is truthy) or logs and returns `null`. -/
def consume (st : RLState) (ctx : Ctx)
    (optsKey : Option (Ctx → Option String))
    (optsPoints : Option (Ctx → Int))
    (store : String → Int → StoreOutcome) : ConsumeOutcome :=
  if (match st.bypassSecret with
      | some sec => decide (sec ≠ "") &&
          (ctx.header "x-ratelimit-bypass" == some sec)
      | none => false) then
    .value none false
  else
    let ip := jsOrOptStr ((ctx.header "x-forwarded-for").map splitHeadComma)
      (ctx.header "x-real-ip")
    if (match st.bypassIps, ip with
        | some ips, some i => decide (i ≠ "") && ips.contains i
        | _, _ => false) then
      .value none false
    else
      match (optsKey.getD st.calcKey) ctx with
      | none => .value none false
      | some key =>
        let pts := (optsPoints.getD st.calcPoints) ctx
        if pts < 1 then .value none false
        else
          match store key pts with
          | .ok res => .value (some (.status (formatLimiterStatus st res))) false
          | .throwRes res =>
            .value (some (.exceededE (formatLimiterStatus st res))) false
          | .throwErr e =>
            if st.failClosed.getD false then .thrown e
            else .value none true

/-- Options of a limiter built with `failClosed: true`. -/
def c1Opts : RLOpts where
  keyPrefix := "rl-test"
  durationMs := 60000
  points := 10
  calcKey := some fun _ => some "k"
  failClosed := some true

/-- A request context with no headers. -/
def c1Ctx : Ctx := ⟨fun _ => none⟩

/-- C1: a limiter constructed with `failClosed: true` still fails open.
The constructor never copies `opts.failClosed` into `this.failClosed`,
so when the store rejects with a non-`RateLimiterRes` error, `consume`
logs and returns `null` instead of propagating the throw. -/
theorem c1_failClosed_ignored :
    (mkRateLimiter c1Opts).failClosed = none ∧
      consume (mkRateLimiter c1Opts) c1Ctx none none
          (fun _ _ => .throwErr "store down") =
        .value none true :=
  ⟨rfl, rfl⟩

/-- One element of the result list `getTightestLimit` aggregates
(`RateLimiterStatus | RateLimitExceededError | null`). -/
inductive LimitResp where
  | status (s : RateLimiterStatus)
  | exceeded (s : RateLimiterStatus)
  | nullR
  deriving DecidableEq

/-- One step of the `lowest` update in `getTightestLimit`: keep the
status with strictly fewer remaining points. -/
def gtlStep (lowest : Option RateLimiterStatus) (s : RateLimiterStatus) :
    RateLimiterStatus :=
  match lowest with
  | none => s
  | some l => if s.remainingPoints < l.remainingPoints then s else l

/-- The loop of `getTightestLimit` (src/src/rate-limiter.ts, lines
228-240): skip nulls, return the first `RateLimitExceededError`
immediately, otherwise track the status with the least
`remainingPoints`. -/
def gtlLoop : List LimitResp → Option RateLimiterStatus → LimitResp
  | [], lowest =>
    match lowest with
    | none => .nullR
    | some s => .status s
  | r :: rest, lowest =>
    match r with
    | .nullR => gtlLoop rest lowest
    | .exceeded s => .exceeded s
    | .status s => gtlLoop rest (some (gtlStep lowest s))

/-- `getTightestLimit` (src/src/rate-limiter.ts, lines 228-240). -/
def getTightestLimit (resps : List LimitResp) : LimitResp :=
  gtlLoop resps none

/-- `consumeMany` (src/src/rate-limiter.ts, lines 189-205) without its
header side effect: null for an empty limiter list, otherwise the
tightest of all limiter results. -/
def consumeMany (ctx : Ctx) (fns : List (Ctx → LimitResp)) : LimitResp :=
  if fns.length = 0 then .nullR
  else getTightestLimit (fns.map fun fn => fn ctx)

/-- Abbreviation of the `lowest` tracking over a whole list. -/
def minStatus (l : List LimitResp) (lowest : Option RateLimiterStatus) :
    Option RateLimiterStatus :=
  l.foldl
    (fun acc r =>
      match r with
      | .status s => some (gtlStep acc s)
      | _ => acc)
    lowest

/-- "At least as tight as": an exceeded outcome is tightest, a status
outcome tightens as `remainingPoints` falls, null is loosest. -/
def tighterEq : LimitResp → LimitResp → Prop
  | .exceeded _, _ => True
  | .status s, .status t => s.remainingPoints ≤ t.remainingPoints
  | .status _, .nullR => True
  | .status _, .exceeded _ => False
  | .nullR, .nullR => True
  | .nullR, .status _ => False
  | .nullR, .exceeded _ => False

theorem tighterEq_refl (x : LimitResp) : tighterEq x x := by
  cases x <;> simp [tighterEq]

theorem gtlStep_le_s (lowest : Option RateLimiterStatus)
    (s : RateLimiterStatus) :
    (gtlStep lowest s).remainingPoints ≤ s.remainingPoints := by
  cases lowest with
  | none => exact le_refl _
  | some l =>
    by_cases h : s.remainingPoints < l.remainingPoints
    · simp [gtlStep, h]
    · simp [gtlStep, h]
      omega

theorem gtlStep_le_lo (lo : RateLimiterStatus) (s : RateLimiterStatus) :
    (gtlStep (some lo) s).remainingPoints ≤ lo.remainingPoints := by
  by_cases h : s.remainingPoints < lo.remainingPoints
  · simp [gtlStep, h]
    omega
  · simp [gtlStep, h]

theorem gtlStep_cases (lowest : Option RateLimiterStatus)
    (s : RateLimiterStatus) :
    gtlStep lowest s = s ∨ lowest = some (gtlStep lowest s) := by
  cases lowest with
  | none => exact Or.inl rfl
  | some l =>
    by_cases h : s.remainingPoints < l.remainingPoints
    · exact Or.inl (by simp [gtlStep, h])
    · exact Or.inr (by simp [gtlStep, h])

/-- The `lowest` tracking specification: when and where the minimum
lives, and that it bounds every status seen. -/
theorem minStatus_spec :
    ∀ (l : List LimitResp) (lowest : Option RateLimiterStatus),
      (minStatus l lowest = none ↔
        (lowest = none ∧ ∀ s, LimitResp.status s ∉ l)) ∧
      (∀ m, minStatus l lowest = some m →
        (lowest = some m ∨ LimitResp.status m ∈ l) ∧
        (∀ t, LimitResp.status t ∈ l →
          m.remainingPoints ≤ t.remainingPoints) ∧
        (∀ lo, lowest = some lo →
          m.remainingPoints ≤ lo.remainingPoints))
  | [], lowest => by
    constructor
    · simp [minStatus]
    · intro m hm
      simp [minStatus] at hm
      subst hm
      refine ⟨Or.inl rfl, by simp, fun lo hlo => ?_⟩
      have h := Option.some_inj.mp hlo
      rw [h]
  | r :: rest, lowest => by
    cases r with
    | nullR =>
      have ih := minStatus_spec rest lowest
      have hms : minStatus (LimitResp.nullR :: rest) lowest =
          minStatus rest lowest := rfl
      rw [hms]
      constructor
      · rw [ih.1]
        constructor
        · rintro ⟨h1, h2⟩
          exact ⟨h1, fun s => by simp [h2 s]⟩
        · rintro ⟨h1, h2⟩
          exact ⟨h1, fun s => fun hmem => h2 s (List.mem_cons_of_mem _ hmem)⟩
      · intro m hm
        obtain ⟨hin, hbd, hlo⟩ := ih.2 m hm
        refine ⟨?_, ?_, hlo⟩
        · rcases hin with h | h
          · exact Or.inl h
          · exact Or.inr (List.mem_cons_of_mem _ h)
        · intro t ht
          rcases List.mem_cons.mp ht with h | h
          · cases h
          · exact hbd t h
    | exceeded s =>
      have ih := minStatus_spec rest lowest
      have hms : minStatus (LimitResp.exceeded s :: rest) lowest =
          minStatus rest lowest := rfl
      rw [hms]
      constructor
      · rw [ih.1]
        constructor
        · rintro ⟨h1, h2⟩
          exact ⟨h1, fun x => by simp [h2 x]⟩
        · rintro ⟨h1, h2⟩
          exact ⟨h1, fun x => fun hmem => h2 x (List.mem_cons_of_mem _ hmem)⟩
      · intro m hm
        obtain ⟨hin, hbd, hlo⟩ := ih.2 m hm
        refine ⟨?_, ?_, hlo⟩
        · rcases hin with h | h
          · exact Or.inl h
          · exact Or.inr (List.mem_cons_of_mem _ h)
        · intro t ht
          rcases List.mem_cons.mp ht with h | h
          · cases h
          · exact hbd t h
    | status s =>
      have ih := minStatus_spec rest (some (gtlStep lowest s))
      have hms : minStatus (LimitResp.status s :: rest) lowest =
          minStatus rest (some (gtlStep lowest s)) := rfl
      rw [hms]
      constructor
      · rw [ih.1]
        constructor
        · rintro ⟨h1, _⟩
          cases h1
        · rintro ⟨_, h2⟩
          exact absurd (List.mem_cons_self _ _) (h2 s)
      · intro m hm
        obtain ⟨hin, hbd, hlo⟩ := ih.2 m hm
        have hlom : m.remainingPoints ≤ (gtlStep lowest s).remainingPoints :=
          hlo _ rfl
        refine ⟨?_, ?_, ?_⟩
        · rcases hin with h | h
          · rw [Option.some_inj] at h
            rcases gtlStep_cases lowest s with hc | hc
            · rw [hc] at h
              exact Or.inr (h ▸ List.mem_cons_self _ _)
            · exact Or.inl (by rw [hc, h])
          · exact Or.inr (List.mem_cons_of_mem _ h)
        · intro t ht
          rcases List.mem_cons.mp ht with h | h
          · have hts : t = s := by injection h
            rw [hts]
            exact le_trans hlom (gtlStep_le_s lowest s)
          · exact hbd t h
        · intro lo hlo'
          subst hlo'
          exact le_trans hlom (gtlStep_le_lo lo s)

/-- Without an exceeded result, the loop computes the tracked minimum. -/
theorem gtlLoop_no_exc :
    ∀ (l : List LimitResp) (lowest : Option RateLimiterStatus),
      (∀ x ∈ l, ∀ s, x ≠ LimitResp.exceeded s) →
      gtlLoop l lowest =
        (match minStatus l lowest with
         | none => .nullR
         | some s => .status s)
  | [], lowest, _ => rfl
  | r :: rest, lowest, h => by
    cases r with
    | nullR =>
      have := gtlLoop_no_exc rest lowest
        (fun x hx => h x (List.mem_cons_of_mem _ hx))
      simpa [gtlLoop, minStatus] using this
    | exceeded s =>
      exact absurd rfl (h _ (List.mem_cons_self _ _) s)
    | status s =>
      have := gtlLoop_no_exc rest (some (gtlStep lowest s))
        (fun x hx => h x (List.mem_cons_of_mem _ hx))
      simpa [gtlLoop, minStatus] using this

/-- Once the loop result is exceeded, appending more results changes
nothing. -/
theorem gtlLoop_exc_append :
    ∀ (l l2 : List LimitResp) (lowest : Option RateLimiterStatus)
      (s : RateLimiterStatus), gtlLoop l lowest = .exceeded s →
      gtlLoop (l ++ l2) lowest = .exceeded s
  | [], _, lowest, s, h => by
    cases lowest <;> simp [gtlLoop] at h
  | r :: rest, l2, lowest, s, h => by
    cases r with
    | nullR => exact gtlLoop_exc_append rest l2 lowest s h
    | exceeded t => simpa [gtlLoop] using h
    | status t => exact gtlLoop_exc_append rest l2 _ s h

/-- Without an exceeded result in the first part, the loop continues
into the appended part with the tracked minimum. -/
theorem gtlLoop_append :
    ∀ (l l2 : List LimitResp) (lowest : Option RateLimiterStatus),
      (∀ x ∈ l, ∀ s, x ≠ LimitResp.exceeded s) →
      gtlLoop (l ++ l2) lowest = gtlLoop l2 (minStatus l lowest)
  | [], _, _, _ => rfl
  | r :: rest, l2, lowest, h => by
    cases r with
    | nullR =>
      have := gtlLoop_append rest l2 lowest
        (fun x hx => h x (List.mem_cons_of_mem _ hx))
      simpa [gtlLoop, minStatus] using this
    | exceeded s =>
      exact absurd rfl (h _ (List.mem_cons_self _ _) s)
    | status s =>
      have := gtlLoop_append rest l2 (some (gtlStep lowest s))
        (fun x hx => h x (List.mem_cons_of_mem _ hx))
      simpa [gtlLoop, minStatus] using this

/-- If some exceeded result is present, the loop returns one of them. -/
theorem gtlLoop_exc_of_mem :
    ∀ (l : List LimitResp) (lowest : Option RateLimiterStatus),
      (∃ s, LimitResp.exceeded s ∈ l) →
      ∃ s, gtlLoop l lowest = .exceeded s ∧ LimitResp.exceeded s ∈ l
  | [], _, h => by
    obtain ⟨s, hs⟩ := h
    cases hs
  | r :: rest, lowest, h => by
    cases r with
    | exceeded s =>
      exact ⟨s, rfl, List.mem_cons_self _ _⟩
    | nullR =>
      obtain ⟨s, hs⟩ := h
      have hs' : LimitResp.exceeded s ∈ rest := by
        rcases List.mem_cons.mp hs with h' | h'
        · cases h'
        · exact h'
      obtain ⟨t, ht1, ht2⟩ := gtlLoop_exc_of_mem rest lowest ⟨s, hs'⟩
      exact ⟨t, ht1, List.mem_cons_of_mem _ ht2⟩
    | status u =>
      obtain ⟨s, hs⟩ := h
      have hs' : LimitResp.exceeded s ∈ rest := by
        rcases List.mem_cons.mp hs with h' | h'
        · cases h'
        · exact h'
      obtain ⟨t, ht1, ht2⟩ :=
        gtlLoop_exc_of_mem rest (some (gtlStep lowest u)) ⟨s, hs'⟩
      exact ⟨t, ht1, List.mem_cons_of_mem _ ht2⟩

/-- C7: `getTightestLimit` picks an exceeded result whenever one
exists; otherwise it returns the status with the least remaining
points (null exactly when every input is null); and appending one more
result never relaxes the outcome — an exceeded aggregate stays
exceeded, and otherwise the aggregate's remaining points never
increase. -/
theorem c7_tightest_monotone (resps : List LimitResp) (r : LimitResp) :
    ((∃ s, LimitResp.exceeded s ∈ resps) →
      ∃ s, getTightestLimit resps = .exceeded s ∧
        LimitResp.exceeded s ∈ resps) ∧
    ((∀ x ∈ resps, ∀ s, x ≠ LimitResp.exceeded s) →
      ((getTightestLimit resps = .nullR ↔ ∀ x ∈ resps, x = .nullR) ∧
       (∀ s, getTightestLimit resps = .status s →
         LimitResp.status s ∈ resps ∧
         ∀ t, LimitResp.status t ∈ resps →
           s.remainingPoints ≤ t.remainingPoints))) ∧
    tighterEq (getTightestLimit (resps ++ [r])) (getTightestLimit resps) := by
  refine ⟨fun h => gtlLoop_exc_of_mem resps none h, fun hno => ?_, ?_⟩
  · have hloop := gtlLoop_no_exc resps none hno
    have hspec := minStatus_spec resps none
    constructor
    · rw [getTightestLimit, hloop]
      constructor
      · intro hnull
        cases hms : minStatus resps none with
        | none =>
          obtain ⟨_, hnost⟩ := hspec.1.mp hms
          intro x hx
          cases x with
          | nullR => rfl
          | status s => exact absurd hx (hnost s)
          | exceeded s => exact absurd rfl (hno _ hx s)
        | some m => rw [hms] at hnull; cases hnull
      · intro hall
        have hms : minStatus resps none = none := by
          rw [hspec.1]
          refine ⟨rfl, fun s hs => ?_⟩
          cases hall _ hs
        rw [hms]
    · intro s hs
      rw [getTightestLimit, hloop] at hs
      cases hms : minStatus resps none with
      | none => rw [hms] at hs; cases hs
      | some m =>
        rw [hms] at hs
        have hmse : m = s := by injection hs
        rw [hmse] at hms
        obtain ⟨hin, hbd, _⟩ := hspec.2 s hms
        rcases hin with h | h
        · cases h
        · exact ⟨h, hbd⟩
  · by_cases hexc : ∃ s, LimitResp.exceeded s ∈ resps
    · obtain ⟨s, hs1, _⟩ := gtlLoop_exc_of_mem resps none hexc
      have : gtlLoop (resps ++ [r]) none = .exceeded s :=
        gtlLoop_exc_append resps [r] none s hs1
      rw [getTightestLimit, getTightestLimit, this, hs1]
      trivial
    · have hno : ∀ x ∈ resps, ∀ s, x ≠ LimitResp.exceeded s := by
        intro x hx s hxs
        exact hexc ⟨s, hxs ▸ hx⟩
      have happ := gtlLoop_append resps [r] none hno
      have hloop := gtlLoop_no_exc resps none hno
      rw [getTightestLimit, getTightestLimit, happ, hloop]
      cases r with
      | exceeded s => trivial
      | nullR =>
        cases hms : minStatus resps none with
        | none => simp [gtlLoop, hms, tighterEq]
        | some m => simp [gtlLoop, hms, tighterEq]
      | status s =>
        cases hms : minStatus resps none with
        | none => simp [gtlLoop, hms, gtlStep, tighterEq]
        | some m =>
          simp only [gtlLoop, hms]
          exact gtlStep_le_lo m s

/-- Witness for `c7_tightest_monotone`: two concrete result lists. -/
theorem c7_tightest_monotone_witness :
    (∃ s, getTightestLimit
        [LimitResp.status ⟨10, 60, 5, 100, 5, false⟩,
         LimitResp.exceeded ⟨10, 60, 0, 100, 10, false⟩] = .exceeded s ∧
      LimitResp.exceeded s ∈
        [LimitResp.status ⟨10, 60, 5, 100, 5, false⟩,
         LimitResp.exceeded ⟨10, 60, 0, 100, 10, false⟩]) ∧
    tighterEq
      (getTightestLimit ([LimitResp.status ⟨10, 60, 5, 100, 5, false⟩] ++
        [LimitResp.nullR]))
      (getTightestLimit [LimitResp.status ⟨10, 60, 5, 100, 5, false⟩]) := by
  constructor
  · exact (c7_tightest_monotone
      [LimitResp.status ⟨10, 60, 5, 100, 5, false⟩,
       LimitResp.exceeded ⟨10, 60, 0, 100, 10, false⟩] LimitResp.nullR).1
      ⟨⟨10, 60, 0, 100, 10, false⟩, by simp⟩
  · exact (c7_tightest_monotone
      [LimitResp.status ⟨10, 60, 5, 100, 5, false⟩] LimitResp.nullR).2.2

end RateLimit

namespace Routes

/-- The options `setupRouteRateLimits` passes to
`this.options.rateLimits?.creator` for an inline route limit
(src/src/server.ts, lines 708-716). -/
structure CreatorOpts where
  keyPrefix : String
  durationMs : Int
  points : Int
  deriving DecidableEq

/-- One entry of `this.routeRateLimiters[nsid]`: a wrapper around a
global limiter, a named shared limiter, or a limiter freshly created
for the route. -/
inductive RouteLimiter where
  | globalRef (i : Nat)
  | sharedRef (name : String)
  | created (opts : CreatorOpts)
  deriving DecidableEq

/-- `HandlerRateLimitOpts` (src/src/types.ts): a shared reference
(`isShared` checks for a string `name`) or inline duration/points. -/
inductive RateLimitOptsE where
  | sharedL (name : String)
  | routeL (durationMs points : Int)
  deriving DecidableEq

/-- The `for (let i = 0; i < limits.length; i++)` loop of
`setupRouteRateLimits` (src/src/server.ts, lines 690-732), carrying
the running index `i`.  A shared reference is pushed only when the
name resolves in `this.sharedRateLimiters`; an inline limit is pushed
only when a creator is configured, with
`keyPrefix = "nsid-" + i` — the route's NSID is not part of the
prefix.  (The inline branch also stores the created limiter in
`this.sharedRateLimiters[nsid]`, which no claim here needs.) -/
def processLimits (sharedNames : List String) (creatorPresent : Bool) :
    List RateLimitOptsE → Nat → List RouteLimiter
  | [], _ => []
  | limit :: rest, i =>
    match limit with
    | .sharedL name =>
      if name ∈ sharedNames then
        .sharedRef name :: processLimits sharedNames creatorPresent rest (i + 1)
      else processLimits sharedNames creatorPresent rest (i + 1)
    | .routeL d p =>
      if creatorPresent then
        .created ⟨"nsid-" ++ toString i, d, p⟩ ::
          processLimits sharedNames creatorPresent rest (i + 1)
      else processLimits sharedNames creatorPresent rest (i + 1)

/-- `Server.setupRouteRateLimits` (src/src/server.ts, lines 676-734):
first push one wrapper per global limiter; then, when the route
declares `config.rateLimit`, reset `this.routeRateLimiters[nsid]` to
the empty list (discarding the global wrappers) and process the
declared limits. -/
def setupRouteRateLimits (globalsCount : Nat) (sharedNames : List String)
    (creatorPresent : Bool) (nsid : String)
    (rateLimit : Option (List RateLimitOptsE)) : List RouteLimiter :=
  let base := (List.range globalsCount).map RouteLimiter.globalRef
  match rateLimit with
  | none => base
  | some limits =>
    -- source line 689: `this.routeRateLimiters[nsid] = [];`
    processLimits sharedNames creatorPresent limits 0

/-- The limiters `createHandler` consumes before invoking the handler
(src/src/server.ts, lines 482-521): exactly
`this.routeRateLimiters[nsid] ?? []`, which `addRoute` populated via
`setupRouteRateLimits`. -/
def handlerConsumedLimiters (globalsCount : Nat) (sharedNames : List String)
    (creatorPresent : Bool) (nsid : String)
    (rateLimit : Option (List RateLimitOptsE)) : List RouteLimiter :=
  setupRouteRateLimits globalsCount sharedNames creatorPresent nsid rateLimit

/-- C4: on a route that declares its own `rateLimit` configuration,
the set of limiters consumed before the handler is NOT a superset of
the global limiters: with one global limiter and one inline route
limit, the consumed list is just the created route limiter and the
global wrapper is absent; without a `rateLimit` configuration the
globals are consumed. -/
theorem c4_globals_dropped_on_configured_route :
    handlerConsumedLimiters 1 [] true "com.example.a"
        (some [.routeL 300000 5]) =
      [.created ⟨"nsid-0", 300000, 5⟩] ∧
    RouteLimiter.globalRef 0 ∉
      handlerConsumedLimiters 1 [] true "com.example.a"
        (some [.routeL 300000 5]) ∧
    handlerConsumedLimiters 1 [] true "com.example.a" none =
      [.globalRef 0] := by
  refine ⟨?_, ?_, rfl⟩
  · rfl
  · decide

/-- Inline limits produce created limiters whose prefix is derived
from the loop index alone. -/
theorem processLimits_inline_mem (sharedNames : List String) :
    ∀ (limits : List RateLimitOptsE) (i0 i : Nat) (d p : Int),
      limits[i]? = some (.routeL d p) →
      RouteLimiter.created ⟨"nsid-" ++ toString (i0 + i), d, p⟩ ∈
        processLimits sharedNames true limits i0
  | [], _, i, _, _, h => by simp at h
  | limit :: rest, i0, 0, d, p, h => by
    simp at h
    subst h
    simp [processLimits]
  | limit :: rest, i0, i + 1, d, p, h => by
    simp at h
    have ih := processLimits_inline_mem sharedNames rest (i0 + 1) i d p h
    have harith : i0 + 1 + i = i0 + (i + 1) := by omega
    rw [harith] at ih
    cases limit with
    | sharedL name =>
      by_cases hn : name ∈ sharedNames
      · rw [show processLimits sharedNames true
            (RateLimitOptsE.sharedL name :: rest) i0 =
            .sharedRef name :: processLimits sharedNames true rest (i0 + 1)
          from by simp [processLimits, hn]]
        exact List.mem_cons_of_mem _ ih
      · rw [show processLimits sharedNames true
            (RateLimitOptsE.sharedL name :: rest) i0 =
            processLimits sharedNames true rest (i0 + 1)
          from by simp [processLimits, hn]]
        exact ih
    | routeL d' p' =>
      rw [show processLimits sharedNames true
          (RateLimitOptsE.routeL d' p' :: rest) i0 =
          .created ⟨"nsid-" ++ toString i0, d', p'⟩ ::
            processLimits sharedNames true rest (i0 + 1)
        from by simp [processLimits]]
      exact List.mem_cons_of_mem _ ih

/-- C10: every inline route limiter is created with
`keyPrefix = "nsid-" + index`; in particular, two routes (possibly on
different servers, with different NSIDs) that each declare an inline
limit at the same index get created limiters with the identical key
prefix, which never mentions either route's NSID. -/
theorem c10_inline_keyPrefix_collision
    (g₁ g₂ : Nat) (sh₁ sh₂ : List String) (n₁ n₂ : String)
    (limits₁ limits₂ : List RateLimitOptsE) (i : Nat)
    (d₁ p₁ d₂ p₂ : Int)
    (h₁ : limits₁[i]? = some (.routeL d₁ p₁))
    (h₂ : limits₂[i]? = some (.routeL d₂ p₂)) :
    ∃ pfx, pfx = "nsid-" ++ toString i ∧
      RouteLimiter.created ⟨pfx, d₁, p₁⟩ ∈
        setupRouteRateLimits g₁ sh₁ true n₁ (some limits₁) ∧
      RouteLimiter.created ⟨pfx, d₂, p₂⟩ ∈
        setupRouteRateLimits g₂ sh₂ true n₂ (some limits₂) := by
  refine ⟨"nsid-" ++ toString i, rfl, ?_, ?_⟩
  · have h := processLimits_inline_mem sh₁ limits₁ 0 i d₁ p₁ h₁
    simpa [setupRouteRateLimits] using h
  · have h := processLimits_inline_mem sh₂ limits₂ 0 i d₂ p₂ h₂
    simpa [setupRouteRateLimits] using h

/-- Witness for `c10_inline_keyPrefix_collision`: two different routes
declaring inline limits at index 0. -/
theorem c10_inline_keyPrefix_collision_witness :
    ∃ pfx, pfx = "nsid-" ++ toString 0 ∧
      RouteLimiter.created ⟨pfx, 300000, 5⟩ ∈
        setupRouteRateLimits 0 [] true "com.example.a"
          (some [.routeL 300000 5]) ∧
      RouteLimiter.created ⟨pfx, 60000, 2⟩ ∈
        setupRouteRateLimits 2 ["other"] true "com.example.b"
          (some [.routeL 60000 2]) :=
  c10_inline_keyPrefix_collision 0 2 [] ["other"] "com.example.a"
    "com.example.b" [.routeL 300000 5] [.routeL 60000 2] 0
    300000 5 60000 2 (by decide) (by decide)

end Routes

namespace Errors

/-- The reverse enum lookup `ResponseType[code]` of the external
`@atproto/xrpc` dependency: the member name for a known code,
undefined otherwise.  Modelled from the spec's error taxonomy table
and the dependency's enum. -/
def responseTypeName : Int → Option String
  | 1 => some "Unknown"
  | 2 => some "InvalidResponse"
  | 200 => some "Success"
  | 400 => some "InvalidRequest"
  | 401 => some "AuthRequired"
  | 403 => some "Forbidden"
  | 404 => some "XRPCNotSupported"
  | 413 => some "PayloadTooLarge"
  | 429 => some "RateLimitExceeded"
  | 500 => some "InternalServerError"
  | 501 => some "MethodNotImplemented"
  | 502 => some "UpstreamFailure"
  | 504 => some "UpstreamTimeout"
  | 507 => some "NotEnoughResources"
  | _ => none

/-- The `ResponseTypeStrings` table of the external `@atproto/xrpc`
dependency: the human status string for a known code.  Modelled from
the spec's error taxonomy table and the dependency's constant. -/
def responseTypeStr : Int → Option String
  | 1 => some "Unknown"
  | 2 => some "Invalid Response"
  | 200 => some "Success"
  | 400 => some "Invalid Request"
  | 401 => some "Authentication Required"
  | 403 => some "Forbidden"
  | 404 => some "XRPC Not Supported"
  | 413 => some "Payload Too Large"
  | 429 => some "Rate Limit Exceeded"
  | 500 => some "Internal Server Error"
  | 501 => some "Method Not Implemented"
  | 502 => some "Upstream Failure"
  | 504 => some "Upstream Timeout"
  | 507 => some "Not Enough Resources"
  | _ => none

/-- An `XRPCError` (src/src/types.ts): numeric response type, optional
message, optional custom error name. -/
structure XRPCErrorE where
  type : Int
  errorMessage : Option String := none
  customErrorName : Option String := none
  deriving DecidableEq

/-- JavaScript `a || b` for an optional string `a`: `b` when `a` is
absent or empty. -/
def jsOrStr (a : Option String) (b : String) : String :=
  match a with
  | some s => if s = "" then b else s
  | none => b

/-- `XRPCError.statusCode` (src/src/types.ts, lines 832-843): types
outside `[400, 600)` (or non-finite, which an `Int` cannot be) are
coerced to 500. -/
def statusCode (e : XRPCErrorE) : Int :=
  if e.type < 400 ∨ 600 ≤ e.type then 500 else e.type

/-- The `error` field of `XRPCError.payload` (src/src/types.ts):
`customErrorName ?? typeName ?? "Unknown"` (nullish chain). -/
def payloadError (e : XRPCErrorE) : String :=
  (match e.customErrorName with
   | some n => some n
   | none => responseTypeName e.type).getD "Unknown"

/-- The `message` field of `XRPCError.payload` (src/src/types.ts,
lines 845-852): the generic status string when `type` equals
`ResponseType.InternalServerError` (500) exactly, the error's own
message otherwise. -/
def payloadMessage (e : XRPCErrorE) : String :=
  if e.type = 500 then (responseTypeStr e.type).getD "Internal Server Error"
  else jsOrStr e.errorMessage (jsOrStr (responseTypeStr e.type) "Unknown Error")

/-- C5 (counterexample): an `XRPCError` whose type is 300 produces an
HTTP 500 response (the type is coerced) whose wire message is the
internal error message, not the generic status string — the payload
getter checks `type === 500`, not the coerced status. -/
theorem c5_coerced_status_leaks_message :
    statusCode ⟨300, some "secret detail", none⟩ = 500 ∧
      payloadMessage ⟨300, some "secret detail", none⟩ = "secret detail" ∧
      "secret detail" ≠ "Internal Server Error" :=
  ⟨by decide, by decide, by decide⟩

/-- C5 (amended): the HTTP status equals the error type when the type
lies in `[400, 600)` and is 500 otherwise; and whenever the error's
*type* is exactly 500 (`ResponseType.InternalServerError`) the wire
message is the generic "Internal Server Error" string.  Errors with a
type outside `[400, 600)` are coerced to status 500 but keep their own
message. -/
theorem c5_status_and_payload_amended (e : XRPCErrorE) :
    statusCode e = (if 400 ≤ e.type ∧ e.type < 600 then e.type else 500) ∧
      (e.type = 500 → payloadMessage e = "Internal Server Error") := by
  constructor
  · unfold statusCode
    by_cases h1 : e.type < 400 ∨ 600 ≤ e.type
    · rw [if_pos h1, if_neg (by omega)]
    · rw [if_neg h1, if_pos (by omega)]
  · intro h
    obtain ⟨t, msg, name⟩ := e
    simp only at h
    subst h
    rfl

/-- Witness for `c5_status_and_payload_amended` at a genuine internal
server error. -/
theorem c5_status_and_payload_amended_witness :
    statusCode ⟨500, some "boom", none⟩ = 500 ∧
      payloadMessage ⟨500, some "boom", none⟩ = "Internal Server Error" := by
  have h := c5_status_and_payload_amended ⟨500, some "boom", none⟩
  refine ⟨?_, h.2 rfl⟩
  rw [h.1]
  decide

end Errors

namespace Stream

/-- A value thrown inside the subscription producer: an `XRPCError`,
or an ordinary JavaScript `Error` with a message. -/
inductive ErrLike where
  | xrpc (e : Errors.XRPCErrorE)
  | js (msg : String)
  deriving DecidableEq

/-- `XRPCError.fromError` (src/src/types.ts, lines 862-899) on the
thrown shapes above: an `XRPCError` is returned as-is; an ordinary
`Error` becomes an `InternalServerError` carrying its message. -/
def fromError : ErrLike → Errors.XRPCErrorE
  | .xrpc e => e
  | .js msg => ⟨500, some msg, none⟩

/-- The Error frame the subscription generator emits for a thrown
error (src/src/server.ts, lines 637-643):
`new ErrorFrame({error: payload.error ?? "Unknown", message:
payload.message})` — both payload fields are always strings, so the
body carries the payload's error name and its message. -/
def errorFrameOf (e : ErrLike) : Frames.FrameE :=
  .error ⟨Errors.payloadError (fromError e),
    some (Errors.payloadMessage (fromError e))⟩

/-- One value yielded by the user handler's async iterable: a ready
`Frame` (passed through as-is), or any other value to be wrapped in a
`MessageFrame`. -/
inductive SubItem where
  | frame (f : Frames.FrameE)
  | val (v : Frames.CborValue)

/-- Split a character list at a separator character, modelling
JavaScript `String.prototype.split` with a one-character separator. -/
def splitOnChar (sep : Char) (cs : List Char) : List (List Char) :=
  cs.foldr
    (fun c acc =>
      if c = sep then [] :: acc
      else
        match acc with
        | [] => [[c]]
        | g :: gs => (c :: g) :: gs)
    [[]]

/-- JavaScript `s.split("#")`. -/
def splitHash (s : String) : List String :=
  (splitOnChar '#' s.data).map String.mk

/-- Drop the `$type` key, modelling `delete clone["$type"]` on the
shallow copy. -/
def eraseType (kvs : List (String × Frames.CborValue)) :
    List (String × Frames.CborValue) :=
  kvs.filter fun p => p.1 ≠ "$type"

/-- The per-item wrapping of the subscription generator
(src/src/server.ts, lines 612-636): a `Frame` is yielded as-is; a map
with a string `$type` has the type split at `#` — when it has exactly
two parts whose first is empty or the subscription's NSID the
discriminator becomes `#name` — and is re-emitted without `$type`;
anything else becomes a `MessageFrame` with no discriminator. -/
def itemToFrame (nsid : String) : SubItem → Frames.FrameE
  | .frame f => f
  | .val v =>
    match v with
    | .map kvs =>
      match Frames.lookupKey kvs "$type" with
      | some (.str t) =>
        let t' :=
          match splitHash t with
          | [s0, s1] => if s0 = "" ∨ s0 = nsid then "#" ++ s1 else t
          | _ => t
        .message (some t') (.map (eraseType kvs))
      | _ => .message none v
    | _ => .message none v

/-- The state of one subscription producer run: whether the auth
verifier failed (threw or returned an error result, both converted to
an `XRPCError` throw), whether parameter validation threw (with
`String(e)`), the values yielded before any terminal throw, and the
terminal throw of the handler's iterable, if any. -/
structure ProducerRun where
  authErr : Option ErrLike
  paramsErr : Option String
  items : List SubItem
  terminalErr : Option ErrLike

/-- The error the generator's catch clause observes when the producer
throws: auth errors preempt parameter errors preempt the handler's
terminal throw; a parameter failure is wrapped as
`InvalidRequestError(String(e))` (type 400, name "InvalidRequest"). -/
def producedError (run : ProducerRun) : Option ErrLike :=
  match run.authErr with
  | some e => some e
  | none =>
    match run.paramsErr with
    | some msg => some (.xrpc ⟨400, some msg, some "InvalidRequest"⟩)
    | none => run.terminalErr

/-- The frame sequence the subscription generator yields
(src/src/server.ts, `addSubscription`, lines 585-647): on an auth or
parameter failure, a single Error frame; otherwise the wrapped items
followed by one Error frame when the iterable throws. -/
def subscriptionFrames (nsid : String) (run : ProducerRun) :
    List Frames.FrameE :=
  match run.authErr with
  | some e => [errorFrameOf e]
  | none =>
    match run.paramsErr with
    | some msg => [errorFrameOf (.xrpc ⟨400, some msg, some "InvalidRequest"⟩)]
    | none =>
      run.items.map (itemToFrame nsid) ++
        (match run.terminalErr with
         | some e => [errorFrameOf e]
         | none => [])

/-- Whether a frame is an Error frame (`frame instanceof ErrorFrame`). -/
def isErrorFrame : Frames.FrameE → Bool
  | .error _ => true
  | .message _ _ => false

/-- The per-connection send loop of `XrpcStreamServer`
(src/src/stream/server.ts, lines 34-66): send each frame in turn;
after sending an Error frame, throw `DisconnectError(CloseCode.Policy)`
which closes the socket with 1008; on clean end of the sequence close
with `CloseCode.Normal` (1000).  Returns the frames actually sent and
the close code. -/
def runConnection : List Frames.FrameE → List Frames.FrameE × Nat
  | [] => ([], 1000)
  | f :: rest =>
    match f with
    | .error b => ([.error b], 1008)
    | .message t v =>
      let out := runConnection rest
      (.message t v :: out.1, out.2)

/-- Whether a yielded item is itself an Error frame. -/
def isErrorItem : SubItem → Bool
  | .frame (.error _) => true
  | _ => false

theorem itemToFrame_not_error (nsid : String) (i : SubItem)
    (h : isErrorItem i = false) :
    isErrorFrame (itemToFrame nsid i) = false := by
  cases i with
  | frame f =>
    cases f with
    | message t v => rfl
    | error b => simp [isErrorItem] at h
  | val v =>
    cases v with
    | map kvs =>
      cases hl : Frames.lookupKey kvs "$type" with
      | none => simp [itemToFrame, hl, isErrorFrame]
      | some w =>
        cases w <;> simp [itemToFrame, hl, isErrorFrame]
    | int i => rfl
    | str s => rfl
    | boolean b => rfl
    | null => rfl
    | bytes bs => rfl
    | arr vs => rfl

/-- Sending error-free frames followed by one Error frame sends the
whole sequence and closes with 1008. -/
theorem runConnection_clean_append :
    ∀ (l : List Frames.FrameE) (ef : Frames.FrameE),
      (∀ f ∈ l, isErrorFrame f = false) → isErrorFrame ef = true →
      runConnection (l ++ [ef]) = (l ++ [ef], 1008)
  | [], ef, _, hef => by
    cases ef with
    | error b => rfl
    | message t v => simp [isErrorFrame] at hef
  | f :: rest, ef, h, hef => by
    cases f with
    | error b =>
      have := h _ (List.mem_cons_self _ _)
      simp [isErrorFrame] at this
    | message t v =>
      have ih := runConnection_clean_append rest ef
        (fun x hx => h x (List.mem_cons_of_mem _ hx)) hef
      simp [runConnection, ih]

/-- C8: whenever the subscription producer throws (auth verification,
parameter validation, or the handler's async iterable), the server
sends exactly one Error frame, it is the final frame sent, its body is
derived from the `XRPCError` payload of the thrown error, and the
socket closes with policy code 1008. -/
theorem c8_subscription_error_close (nsid : String) (run : ProducerRun)
    (hthrow : producedError run ≠ none)
    (hitems : ∀ i ∈ run.items, isErrorItem i = false) :
    ∃ e sent, producedError run = some e ∧
      runConnection (subscriptionFrames nsid run) = (sent, 1008) ∧
      sent.getLast? = some (errorFrameOf e) ∧
      (sent.filter isErrorFrame).length = 1 := by
  obtain ⟨authErr, paramsErr, items, terminalErr⟩ := run
  cases authErr with
  | some e =>
    refine ⟨e, [errorFrameOf e], rfl, ?_, rfl, ?_⟩
    · simp [subscriptionFrames, errorFrameOf, runConnection]
    · simp [isErrorFrame, errorFrameOf]
  | none =>
    cases paramsErr with
    | some msg =>
      refine ⟨.xrpc ⟨400, some msg, some "InvalidRequest"⟩,
        [errorFrameOf (.xrpc ⟨400, some msg, some "InvalidRequest"⟩)],
        rfl, ?_, rfl, ?_⟩
      · simp [subscriptionFrames, errorFrameOf, runConnection]
      · simp [isErrorFrame, errorFrameOf]
    | none =>
      cases terminalErr with
      | none => exact absurd rfl hthrow
      | some e =>
        have hmapped : ∀ f ∈ items.map (itemToFrame nsid),
            isErrorFrame f = false := by
          intro f hf
          obtain ⟨i, hi, rfl⟩ := List.mem_map.mp hf
          exact itemToFrame_not_error nsid i (hitems i hi)
        have hrun := runConnection_clean_append
          (items.map (itemToFrame nsid)) (errorFrameOf e) hmapped
          (by simp [isErrorFrame, errorFrameOf])
        refine ⟨e, items.map (itemToFrame nsid) ++ [errorFrameOf e],
          rfl, ?_, ?_, ?_⟩
        · simpa [subscriptionFrames] using hrun
        · rw [List.getLast?_concat]
        · rw [List.filter_append]
          have h1 : (items.map (itemToFrame nsid)).filter isErrorFrame = [] := by
            rw [List.filter_eq_nil_iff]
            intro a ha
            simp [hmapped a ha]
          rw [h1]
          simp [isErrorFrame, errorFrameOf]

/-- Witness for `c8_subscription_error_close`: a handler that yields
one message and then throws an ordinary error. -/
theorem c8_subscription_error_close_witness :
    ∃ e sent,
      producedError ⟨none, none, [.val (.str "tick")], some (.js "boom")⟩ =
        some e ∧
      runConnection (subscriptionFrames "io.example.stream"
        ⟨none, none, [.val (.str "tick")], some (.js "boom")⟩) =
        (sent, 1008) ∧
      sent.getLast? = some (errorFrameOf e) ∧
      (sent.filter isErrorFrame).length = 1 :=
  c8_subscription_error_close "io.example.stream"
    ⟨none, none, [.val (.str "tick")], some (.js "boom")⟩
    (by simp [producedError])
    (by intro i hi; simp at hi; subst hi; rfl)

end Stream

namespace Auth

/-- A parsed JSON value (`JSON.parse` output), with numbers as
rationals. -/
inductive JsonValue where
  | str (s : String)
  | num (q : ℚ)
  | boolean (b : Bool)
  | null
  | arr (vs : List JsonValue)
  | obj (kvs : List (String × JsonValue))

/-- JavaScript property access on a parsed JSON object. -/
def lookupJson (kvs : List (String × JsonValue)) (k : String) :
    Option JsonValue :=
  (kvs.find? fun p => p.1 == k).map Prod.snd

/-- JavaScript truthiness of a JSON value. -/
def jsTruthy : JsonValue → Bool
  | .str s => decide (s ≠ "")
  | .num q => decide (q ≠ 0)
  | .boolean b => b
  | .null => false
  | .arr _ => true
  | .obj _ => true

/-- Whether a JSON value is a string (`typeof v === "string"`). -/
def isStr : JsonValue → Bool
  | .str _ => true
  | _ => false

/-- An `AuthRequiredError(message, code)` (src/src/types.ts). -/
structure AuthErrE where
  message : String
  code : String
  deriving DecidableEq

/-- A failure inside a parse step: an `AuthRequiredError` throw, or a
raw `JSON.parse` throw that propagates untyped
(`parseB64UrlToJson` does not catch). -/
inductive StepErr where
  | authE (e : AuthErrE)
  | raw
  deriving DecidableEq

/-- `parseHeader` (src/src/auth.ts, lines 306-312): decode the
base64url JSON; the result must be a non-null object with a string
`alg`; otherwise `BadJwt`.  Returns the header object and its `alg`.
The external base64url+JSON decoding is passed in as `decodeJson`
(`none` models a `JSON.parse` throw). -/
def parseHeader (decodeJson : String → Option JsonValue) (b64 : String) :
    Except StepErr (List (String × JsonValue) × String) :=
  match decodeJson b64 with
  | none => .error .raw
  | some v =>
    match v with
    | .obj kvs =>
      match lookupJson kvs "alg" with
      | some (.str alg) => .ok (kvs, alg)
      | _ => .error (.authE ⟨"poorly formatted jwt", "BadJwt"⟩)
    | _ => .error (.authE ⟨"poorly formatted jwt", "BadJwt"⟩)

/-- The forbidden `typ` check of `verifyJwt` (src/src/auth.ts, lines
179-193): `at+jwt`, `refresh+jwt` and `dpop+jwt` are rejected with
`BadJwtType`. -/
def typForbidden (kvs : List (String × JsonValue)) : Option String :=
  match lookupJson kvs "typ" with
  | some (.str t) =>
    if t = "at+jwt" ∨ t = "refresh+jwt" ∨ t = "dpop+jwt" then some t
    else none
  | _ => none

/-- The payload fields `verifyJwt` uses, extracted during validation. -/
structure ParsedPayload where
  kvs : List (String × JsonValue)
  iss : String
  aud : String
  exp : ℚ

/-- `parsePayload` (src/src/auth.ts, lines 321-335): decode the
base64url JSON; require a non-null object with string `iss`, string
`aud`, numeric `exp`; a truthy non-string `lxm` or `nonce` is
rejected; otherwise `BadJwt`. -/
def parsePayload (decodeJson : String → Option JsonValue) (b64 : String) :
    Except StepErr ParsedPayload :=
  match decodeJson b64 with
  | none => .error .raw
  | some v =>
    match v with
    | .obj kvs =>
      match lookupJson kvs "iss", lookupJson kvs "aud",
          lookupJson kvs "exp" with
      | some (.str iss), some (.str aud), some (.num exp) =>
        if (match lookupJson kvs "lxm" with
            | some w => jsTruthy w && !isStr w
            | none => false) then
          .error (.authE ⟨"poorly formatted jwt", "BadJwt"⟩)
        else if (match lookupJson kvs "nonce" with
            | some w => jsTruthy w && !isStr w
            | none => false) then
          .error (.authE ⟨"poorly formatted jwt", "BadJwt"⟩)
        else .ok ⟨kvs, iss, aud, exp⟩
      | _, _, _ => .error (.authE ⟨"poorly formatted jwt", "BadJwt"⟩)
    | _ => .error (.authE ⟨"poorly formatted jwt", "BadJwt"⟩)

/-- Whether an optional JSON value is a given string (the only case
in which JavaScript `value === str` holds). -/
def jsonEqStr : Option JsonValue → String → Bool
  | some (.str s), l => s == l
  | _, _ => false

/-- JavaScript `jwtStr.split(".")`. -/
def splitParts (s : String) : List String :=
  (Stream.splitOnChar '.' s.data).map String.mk

/-- Result of `verifyJwt`: an `AuthRequiredError` throw, a raw
propagated `JSON.parse` throw, or the verified payload object. -/
inductive VerifyResult where
  | authErr (e : AuthErrE)
  | parseThrow
  | ok (payload : List (String × JsonValue))

/-- `verifyJwt` (src/src/auth.ts, lines 162-265).  External effects
are passed in: `decodeJson` models `parseB64UrlToJson`,
`getSigningKey` the issuer-key callback (second argument is
`forceRefresh`), `verifySig key msg sig alg` the signature
verification (`.error ()` models a throw), and `nowSec` is
`Date.now() / 1000`. -/
def verifyJwt (decodeJson : String → Option JsonValue)
    (getSigningKey : String → Bool → String)
    (verifySig : String → String → String → String → Except Unit Bool)
    (nowSec : ℚ) (jwtStr : String) (ownDid : Option String)
    (lxm : Option String) : VerifyResult :=
  match splitParts jwtStr with
  | [p0, p1, p2] =>
    match parseHeader decodeJson p0 with
    | .error (.authE e) => .authErr e
    | .error .raw => .parseThrow
    | .ok (header, alg) =>
      match typForbidden header with
      | some t =>
        .authErr ⟨"Invalid jwt type \"" ++ t ++ "\"", "BadJwtType"⟩
      | none =>
        match parsePayload decodeJson p1 with
        | .error (.authE e) => .authErr e
        | .error .raw => .parseThrow
        | .ok payload =>
          if nowSec > payload.exp then
            .authErr ⟨"jwt expired", "JwtExpired"⟩
          else if (match ownDid with
              | some did => decide (payload.aud ≠ did)
              | none => false) then
            .authErr ⟨"jwt audience does not match service did",
              "BadJwtAudience"⟩
          else if (match lxm with
              | some l => !jsonEqStr (lookupJson payload.kvs "lxm") l
              | none => false) then
            .authErr
              ⟨(if (lookupJson payload.kvs "lxm").isSome then
                  "bad jwt lexicon method (\"lxm\"). must match: " ++
                    (lxm.getD "")
                else
                  "missing jwt lexicon method (\"lxm\"). must match: " ++
                    (lxm.getD "")),
                "BadJwtLexiconMethod"⟩
          else
            let msg := p0 ++ "." ++ p1
            let signingKey := getSigningKey payload.iss false
            match verifySig signingKey msg p2 alg with
            | .error () =>
              .authErr ⟨"could not verify jwt signature", "BadJwtSignature"⟩
            | .ok validSig =>
              if validSig then .ok payload.kvs
              else
                let fresh := getSigningKey payload.iss true
                if fresh ≠ signingKey then
                  match verifySig fresh msg p2 alg with
                  | .error () =>
                    .authErr ⟨"could not verify jwt signature",
                      "BadJwtSignature"⟩
                  | .ok v2 =>
                    if v2 then .ok payload.kvs
                    else
                      .authErr ⟨"jwt signature does not match jwt issuer",
                        "BadJwtSignature"⟩
                else
                  .authErr ⟨"jwt signature does not match jwt issuer",
                    "BadJwtSignature"⟩
  | _ => .authErr ⟨"poorly formatted jwt", "BadJwt"⟩

/-- C9: for every syntactically well-formed service JWT — three
dot-separated parts with a parseable header (allowed `typ`) and a
parseable payload — whose expiry has passed (`now` in seconds greater
than the payload's `exp`), `verifyJwt` fails with the `AuthRequired`
error subcoded `JwtExpired`, regardless of the expected audience, the
expected lexicon method, the signing keys, or signature validity. -/
theorem c9_expired_jwt_fails (decodeJson : String → Option JsonValue)
    (getSigningKey : String → Bool → String)
    (verifySig : String → String → String → String → Except Unit Bool)
    (nowSec : ℚ) (jwtStr : String) (ownDid lxm : Option String)
    (p0 p1 p2 : String) (headerKvs : List (String × JsonValue))
    (alg : String) (payload : ParsedPayload)
    (hsplit : splitParts jwtStr = [p0, p1, p2])
    (hheader : parseHeader decodeJson p0 = .ok (headerKvs, alg))
    (htyp : typForbidden headerKvs = none)
    (hpayload : parsePayload decodeJson p1 = .ok payload)
    (hexp : nowSec > payload.exp) :
    verifyJwt decodeJson getSigningKey verifySig nowSec jwtStr ownDid lxm =
      .authErr ⟨"jwt expired", "JwtExpired"⟩ := by
  unfold verifyJwt
  rw [hsplit]
  simp only [hheader, htyp, hpayload]
  simp [hexp]

/-- Concrete decoded header/payload environment for the C9 witness. -/
def c9decode : String → Option JsonValue := fun s =>
  if s = "hdr" then some (.obj [("alg", .str "ES256K"), ("typ", .str "JWT")])
  else if s = "pay" then
    some (.obj [("iss", .str "did:example:alice"),
      ("aud", .str "did:example:bob"), ("exp", .num 100)])
  else none

/-- Witness for `c9_expired_jwt_fails`: an expired token checked with a
mismatching audience and a signature routine that would accept. -/
theorem c9_expired_jwt_fails_witness :
    verifyJwt c9decode (fun _ _ => "key") (fun _ _ _ _ => .ok true)
        200 "hdr.pay.sig" (some "did:example:other") (some "io.example.m") =
      .authErr ⟨"jwt expired", "JwtExpired"⟩ :=
  c9_expired_jwt_fails c9decode (fun _ _ => "key") (fun _ _ _ _ => .ok true)
    200 "hdr.pay.sig" (some "did:example:other") (some "io.example.m")
    "hdr" "pay" "sig" [("alg", .str "ES256K"), ("typ", .str "JWT")] "ES256K"
    ⟨[("iss", .str "did:example:alice"), ("aud", .str "did:example:bob"),
      ("exp", .num 100)], "did:example:alice", "did:example:bob", 100⟩
    (by rfl) (by rfl) (by rfl) (by rfl) (by norm_num)

end Auth

namespace QueryParams

/-- The decimal digit characters. -/
def digitChar : Nat → Char
  | 0 => '0'
  | 1 => '1'
  | 2 => '2'
  | 3 => '3'
  | 4 => '4'
  | 5 => '5'
  | 6 => '6'
  | 7 => '7'
  | 8 => '8'
  | 9 => '9'
  | _ => '*'

def isDigitChar (c : Char) : Bool :=
  decide (48 ≤ c.toNat ∧ c.toNat ≤ 57)

def digitVal (c : Char) : Nat := c.toNat - 48

/-- Decimal rendering of a natural number, most significant digit
first (the digits JavaScript `Number.prototype.toString` emits for a
safe integer). -/
def natToChars (n : Nat) : List Char :=
  if h : n < 10 then [digitChar n]
  else natToChars (n / 10) ++ [digitChar (n % 10)]
  decreasing_by exact Nat.div_lt_self (by omega) (by norm_num)

/-- Value of a big-endian digit string. -/
def digitsVal (ds : List Char) : Nat :=
  ds.foldl (fun a c => a * 10 + digitVal c) 0

/-- JavaScript `value.toString()` for an integer-valued number in the
safe range: plain decimal with a leading minus for negatives. -/
def intToStr (n : Int) : String :=
  if n < 0 then String.mk ('-' :: natToChars n.natAbs)
  else String.mk (natToChars n.natAbs)

/-- The decimal-digit prefix parse inside JavaScript
`parseInt(s, 10)`: NaN (none) when no leading digit. -/
def parseDigitsPrefix (cs : List Char) : Option Nat :=
  let ds := cs.takeWhile isDigitChar
  if ds.isEmpty then none else some (digitsVal ds)

/-- The sign handling of JavaScript `parseInt(s, 10)` after space
stripping: optional sign, then the decimal digit prefix. -/
def parseSigned : List Char → Option Int
  | [] => none
  | c :: rest =>
    if c = '-' then (parseDigitsPrefix rest).map fun v => -(v : Int)
    else if c = '+' then (parseDigitsPrefix rest).map fun v => (v : Int)
    else (parseDigitsPrefix (c :: rest)).map fun v => (v : Int)

/-- JavaScript `parseInt(s, 10)`: skip leading spaces, optional sign,
then the decimal digit prefix; `none` models NaN. -/
def parseIntJS (s : String) : Option Int :=
  parseSigned (s.data.dropWhile fun c => c = ' ')

theorem digitVal_digitChar (d : Nat) (h : d < 10) :
    digitVal (digitChar d) = d := by
  interval_cases d <;> rfl

theorem isDigitChar_digitChar (d : Nat) (h : d < 10) :
    isDigitChar (digitChar d) = true := by
  interval_cases d <;> rfl

theorem natToChars_all_digits (n : Nat) :
    ∀ c ∈ natToChars n, isDigitChar c = true := by
  induction n using Nat.strong_induction_on with
  | _ n ih =>
    rw [natToChars]
    by_cases h : n < 10
    · rw [dif_pos h]
      intro c hc
      rw [List.mem_singleton] at hc
      subst hc
      exact isDigitChar_digitChar n h
    · rw [dif_neg h]
      intro c hc
      rcases List.mem_append.mp hc with h1 | h1
      · exact ih (n / 10) (Nat.div_lt_self (by omega) (by norm_num)) c h1
      · rw [List.mem_singleton] at h1
        subst h1
        exact isDigitChar_digitChar (n % 10) (Nat.mod_lt _ (by norm_num))

theorem natToChars_ne_nil (n : Nat) : natToChars n ≠ [] := by
  rw [natToChars]
  by_cases h : n < 10
  · rw [dif_pos h]; simp
  · rw [dif_neg h]; simp

theorem digitsVal_append_one (ds : List Char) (c : Char) :
    digitsVal (ds ++ [c]) = digitsVal ds * 10 + digitVal c := by
  simp [digitsVal, List.foldl_append]

theorem digitsVal_natToChars (n : Nat) :
    digitsVal (natToChars n) = n := by
  induction n using Nat.strong_induction_on with
  | _ n ih =>
    rw [natToChars]
    by_cases h : n < 10
    · rw [dif_pos h]
      simp [digitsVal, digitVal_digitChar n h]
    · rw [dif_neg h]
      rw [digitsVal_append_one,
        ih (n / 10) (Nat.div_lt_self (by omega) (by norm_num)),
        digitVal_digitChar (n % 10) (Nat.mod_lt _ (by norm_num))]
      omega

theorem takeWhile_all {p : Char → Bool} :
    ∀ (l : List Char), (∀ c ∈ l, p c = true) → l.takeWhile p = l
  | [], _ => rfl
  | c :: rest, h => by
    rw [List.takeWhile_cons, h c (List.mem_cons_self _ _),
      takeWhile_all rest fun x hx => h x (List.mem_cons_of_mem _ hx)]
    rfl

theorem dropWhileSpace_all_digits (l : List Char)
    (h : ∀ c ∈ l, isDigitChar c = true) :
    l.dropWhile (fun c => c = ' ') = l := by
  cases l with
  | nil => rfl
  | cons c rest =>
    have hc := h c (List.mem_cons_self _ _)
    have : ¬(c = ' ') := by
      intro heq
      subst heq
      simp [isDigitChar] at hc
    simp [List.dropWhile_cons, this]

theorem parseDigitsPrefix_all (ds : List Char) (hne : ds ≠ [])
    (h : ∀ c ∈ ds, isDigitChar c = true) :
    parseDigitsPrefix ds = some (digitsVal ds) := by
  rw [parseDigitsPrefix]
  simp only [takeWhile_all ds h]
  rw [if_neg (by simpa [List.isEmpty_iff] using hne)]

/-- Parsing the decimal rendering of an integer recovers it. -/
theorem parseIntJS_intToStr (n : Int) : parseIntJS (intToStr n) = some n := by
  by_cases hn : n < 0
  · rw [intToStr, if_pos hn, parseIntJS]
    have hdata : (String.mk ('-' :: natToChars n.natAbs)).data =
        '-' :: natToChars n.natAbs := rfl
    rw [hdata]
    have hdrop : ('-' :: natToChars n.natAbs).dropWhile (fun c => c = ' ') =
        '-' :: natToChars n.natAbs := by
      simp [List.dropWhile_cons]
    rw [hdrop]
    simp only [parseSigned, if_pos rfl]
    rw [parseDigitsPrefix_all _ (natToChars_ne_nil _)
      (natToChars_all_digits _), digitsVal_natToChars]
    have hval : -((n.natAbs : Nat) : Int) = n := by omega
    exact congrArg some hval
  · rw [intToStr, if_neg hn, parseIntJS]
    have hdata : (String.mk (natToChars n.natAbs)).data =
        natToChars n.natAbs := rfl
    rw [hdata]
    rw [dropWhileSpace_all_digits _ (natToChars_all_digits _)]
    cases hnc : natToChars n.natAbs with
    | nil => exact absurd hnc (natToChars_ne_nil _)
    | cons c rest =>
      have hcd : isDigitChar c = true := by
        have := natToChars_all_digits n.natAbs
        rw [hnc] at this
        exact this c (List.mem_cons_self _ _)
      have hcm : ¬(c = '-') := by
        intro heq; subst heq; simp [isDigitChar] at hcd
      have hcp : ¬(c = '+') := by
        intro heq; subst heq; simp [isDigitChar] at hcd
      simp only [parseSigned, if_neg hcm, if_neg hcp]
      rw [← hnc]
      rw [parseDigitsPrefix_all _ (natToChars_ne_nil _)
        (natToChars_all_digits _), digitsVal_natToChars]
      have hval : ((n.natAbs : Nat) : Int) = n := by omega
      exact congrArg some hval

/-- A primitive parameter value (string — also datetimes —, safe
integer, boolean).  The `float` primitive is left out of the embedding
(floating point). -/
inductive Prim where
  | s (v : String)
  | i (v : Int)
  | b (v : Bool)
  deriving DecidableEq

/-- A parameter value: one primitive or an array of primitives. -/
inductive ParamVal where
  | prim (p : Prim)
  | arr (ps : List Prim)
  deriving DecidableEq

/-- The primitive types of the parameter schema handled by
`decodeQueryParam` (the `float` branch is omitted: floating point). -/
inductive PrimType where
  | string
  | datetime
  | integer
  | boolean
  deriving DecidableEq

/-- A declared parameter: a primitive type, or an array with an item
type. -/
inductive PropSchema where
  | prim (t : PrimType)
  | array (items : PrimType)
  deriving DecidableEq

/-- An entry of the decoded `Params` object: `decoded[k]` may be
assigned a primitive, an array, or `undefined`. -/
inductive DecodedVal where
  | primD (p : Prim)
  | arrD (ps : List Prim)
  | undefinedV
  deriving DecidableEq

/-- JavaScript stringification used by `encodeQueryParam`
(src/unnamed/part_010, lines 116-139): strings as-is, numbers via
`toString`, booleans as "true"/"false". -/
def primToStr : Prim → String
  | .s v => v
  | .i v => intToStr v
  | .b v => if v then "true" else "false"

/-- `encodeQueryParams` (src/unnamed/part_010, lines 96-107) composed
with query-string parsing (`getQueryParams`), i.e. the multimap the
URL layer transports: `params.set` stores the single encoded string
for a non-array value, `params.append` adds one entry per array
element (so an empty array leaves no entry for its key). -/
def encodeQueryParams : List (String × ParamVal) → List (String × List String)
  | [] => []
  | (k, v) :: rest =>
    match v with
    | .prim p => (k, [primToStr p]) :: encodeQueryParams rest
    | .arr ps =>
      if ps.isEmpty then encodeQueryParams rest
      else (k, ps.map primToStr) :: encodeQueryParams rest

/-- `decodeQueryParam` (src/src/util.ts, lines 64-81) for the embedded
types.  The `if (!value) return undefined` check makes the empty
string decode to `undefined`; `parseInt(...) || 0` maps NaN to 0. -/
def decodeQueryParam (t : PrimType) (value : String) : Option Prim :=
  if value = "" then none
  else
    match t with
    | .string => some (.s value)
    | .datetime => some (.s value)
    | .integer => some (.i ((parseIntJS value).getD 0))
    | .boolean => some (.b (value == "true"))

/-- The per-property step of `decodeQueryParams`: arrays decode each
element and drop `undefined` results; otherwise the first wire value
is decoded (an absent first value or a falsy decode yields
`undefined`). -/
def decodeEntry (prop : PropSchema) (vals : List String) : DecodedVal :=
  match prop with
  | .array t => .arrD ((vals.map (decodeQueryParam t)).reduceOption)
  | .prim t =>
    match vals.head? with
    | some v0 =>
      match decodeQueryParam t v0 with
      | some p => .primD p
      | none => .undefinedV
    | none => .undefinedV

/-- `decodeQueryParams` (src/src/util.ts, lines 33-56): iterate the
declared properties in order, skipping keys absent from the wire
multimap. -/
def decodeQueryParams (defProps : List (String × PropSchema))
    (params : List (String × List String)) : List (String × DecodedVal) :=
  match defProps with
  | [] => []
  | (k, prop) :: rest =>
    match List.lookup k params with
    | none => decodeQueryParams rest params
    | some vals => (k, decodeEntry prop vals) :: decodeQueryParams rest params

/-- The injection of a parameter value into the decoded-value type
(what a lossless decode must return). -/
def toDecoded : ParamVal → DecodedVal
  | .prim p => .primD p
  | .arr ps => .arrD ps

/-- Whether a primitive conforms to a declared primitive type. -/
def primMatches : PrimType → Prim → Bool
  | .string, .s _ => true
  | .datetime, .s _ => true
  | .integer, .i _ => true
  | .boolean, .b _ => true
  | _, _ => false

/-- Whether a value conforms to a declared property. -/
def valMatches : PropSchema → ParamVal → Bool
  | .prim t, .prim p => primMatches t p
  | .array t, .arr ps => ps.all (primMatches t)
  | _, _ => false

/-- A primitive that survives the decoder's falsiness check: any
non-string, or a nonempty string. -/
def primNonEmpty : Prim → Bool
  | .s v => decide (v ≠ "")
  | _ => true

/-- A value the encoding does not degrade: nonempty strings, and
nonempty arrays of such primitives. -/
def valNonDegenerate : ParamVal → Bool
  | .prim p => primNonEmpty p
  | .arr ps => !ps.isEmpty && ps.all primNonEmpty

/-- `p` conforms to the parameter schema `defProps`: every key is
declared and its value matches the declared type. -/
def conforms (defProps : List (String × PropSchema))
    (p : List (String × ParamVal)) : Prop :=
  ∀ kv ∈ p, ∃ prop, List.lookup kv.1 defProps = some prop ∧
    valMatches prop kv.2 = true

/-- What the encoder contributes for one value, as an optional wire
entry. -/
def encOpt : ParamVal → Option (List String)
  | .prim p => some [primToStr p]
  | .arr ps => if ps.isEmpty then none else some (ps.map primToStr)

theorem lookup_eq_none_of_not_mem {β : Type} (k : String)
    (l : List (String × β)) (h : ∀ kv ∈ l, kv.1 ≠ k) :
    List.lookup k l = none := by
  induction l with
  | nil => rfl
  | cons kv rest ih =>
    obtain ⟨k', v'⟩ := kv
    have hk : ¬(k = k') :=
      fun he => h (k', v') (List.mem_cons_self _ _) (by simp [he])
    have hbeq : (k == k') = false := by
      simp [hk]
    simp only [List.lookup, hbeq]
    exact ih fun kv hkv => h kv (List.mem_cons_of_mem _ hkv)

theorem mem_of_lookup {β : Type} (k : String) (v : β) :
    ∀ (l : List (String × β)), List.lookup k l = some v → (k, v) ∈ l
  | [], h => by cases h
  | (k', v') :: rest, h => by
    by_cases hk : k = k'
    · subst hk
      have hbeq : (k == k) = true := by simp
      simp only [List.lookup_cons, hbeq] at h
      obtain rfl : v' = v := by injection h
      exact List.mem_cons_self _ _
    · have hbeq : (k == k') = false := by simp [hk]
      simp only [List.lookup_cons, hbeq] at h
      exact List.mem_cons_of_mem _ (mem_of_lookup k v rest h)

/-- What looking a key up in the encoded multimap yields: the encoding
of the key's value in `p` (no entry for an empty array). -/
theorem lookup_encode :
    ∀ (p : List (String × ParamVal)), (p.map Prod.fst).Nodup →
      ∀ k, List.lookup k (encodeQueryParams p) = (List.lookup k p).bind encOpt
  | [], _, k => rfl
  | (k', v') :: rest, hnodup, k => by
    rw [List.map_cons, List.nodup_cons] at hnodup
    obtain ⟨hout, hrest⟩ := hnodup
    have ih := lookup_encode rest hrest k
    by_cases hk : k = k'
    · subst hk
      have hbeq : (k == k) = true := by simp
      have hnone : List.lookup k rest = none := by
        apply lookup_eq_none_of_not_mem
        intro kv hkv he
        apply hout
        show k ∈ List.map Prod.fst rest
        rw [← he]
        exact List.mem_map_of_mem Prod.fst hkv
      cases v' with
      | prim pr =>
        simp only [encodeQueryParams, List.lookup_cons, hbeq]
        rfl
      | arr ps =>
        by_cases hemp : ps.isEmpty
        · have hps : ps = [] := List.isEmpty_iff.mp hemp
          simp only [encodeQueryParams, if_pos hemp, ih, hnone,
            List.lookup_cons, hbeq]
          simp [encOpt, hps]
        · have hps : ¬ps = [] := by simpa [List.isEmpty_iff] using hemp
          simp only [encodeQueryParams, if_neg hemp, List.lookup_cons, hbeq]
          simp [encOpt, hps]
    · have hbeq : (k == k') = false := by simp [hk]
      cases v' with
      | prim pr =>
        simp only [encodeQueryParams, List.lookup_cons, hbeq]
        exact ih
      | arr ps =>
        by_cases hemp : ps.isEmpty
        · simp only [encodeQueryParams, if_pos hemp, List.lookup_cons, hbeq]
          exact ih
        · simp only [encodeQueryParams, if_neg hemp, List.lookup_cons, hbeq]
          exact ih

/-- What looking a key up in the decoded object yields: declared keys
present on the wire carry their decoded entry, everything else is
absent. -/
theorem lookup_decode (params : List (String × List String)) :
    ∀ (defProps : List (String × PropSchema)),
      (defProps.map Prod.fst).Nodup → ∀ k,
      List.lookup k (decodeQueryParams defProps params) =
        (match List.lookup k defProps with
         | none => none
         | some prop => (List.lookup k params).map (decodeEntry prop))
  | [], _, k => rfl
  | (k', prop) :: rest, hnodup, k => by
    rw [List.map_cons, List.nodup_cons] at hnodup
    obtain ⟨hout, hrest⟩ := hnodup
    have ih := lookup_decode params rest hrest k
    by_cases hk : k = k'
    · subst hk
      have hbeq : (k == k) = true := by simp
      have hnone : List.lookup k rest = none := by
        apply lookup_eq_none_of_not_mem
        intro kv hkv he
        apply hout
        show k ∈ List.map Prod.fst rest
        rw [← he]
        exact List.mem_map_of_mem Prod.fst hkv
      cases hv : List.lookup k params with
      | none =>
        simp only [decodeQueryParams, hv, ih, hnone, List.lookup_cons, hbeq]
        rfl
      | some vals =>
        simp only [decodeQueryParams, hv, List.lookup_cons, hbeq]
        rfl
    · have hbeq : (k == k') = false := by simp [hk]
      cases hv : List.lookup k' params with
      | none =>
        simp only [decodeQueryParams, hv, List.lookup_cons, hbeq]
        exact ih
      | some vals =>
        simp only [decodeQueryParams, hv, List.lookup_cons, hbeq]
        exact ih

theorem intToStr_ne_empty (n : Int) : intToStr n ≠ "" := by
  rw [intToStr]
  by_cases hn : n < 0
  · rw [if_pos hn]
    intro h
    have hd := congrArg String.data h
    simp at hd
  · rw [if_neg hn]
    intro h
    have hd := congrArg String.data h
    exact natToChars_ne_nil n.natAbs hd

/-- Decoding the stringification of a conforming, non-degenerate
primitive recovers it. -/
theorem decodeQueryParam_primToStr (t : PrimType) (pr : Prim)
    (hm : primMatches t pr = true) (hne : primNonEmpty pr = true) :
    decodeQueryParam t (primToStr pr) = some pr := by
  cases t <;> cases pr
  case string.s v =>
    have hv : ¬(v = "") := by simpa [primNonEmpty] using hne
    simp [decodeQueryParam, primToStr, hv]
  case datetime.s v =>
    have hv : ¬(v = "") := by simpa [primNonEmpty] using hne
    simp [decodeQueryParam, primToStr, hv]
  case integer.i n =>
    have hv : ¬(intToStr n = "") := intToStr_ne_empty n
    simp only [decodeQueryParam, primToStr, if_neg hv, parseIntJS_intToStr]
    rfl
  case boolean.b bv =>
    cases bv with
    | true =>
      have hv : ¬(("true" : String) = "") := by decide
      simp only [primToStr, decodeQueryParam, if_true, if_neg hv]
      rfl
    | false =>
      have hv : ¬(("false" : String) = "") := by decide
      simp only [primToStr, decodeQueryParam, if_false, if_neg hv]
      rfl
  all_goals simp [primMatches] at hm

theorem reduceOption_map_some {α : Type} (f : α → Option α) :
    ∀ (l : List α), (∀ x ∈ l, f x = some x) → (l.map f).reduceOption = l
  | [], _ => rfl
  | x :: rest, h => by
    rw [List.map_cons, h x (List.mem_cons_self _ _),
      List.reduceOption_cons_of_some,
      reduceOption_map_some f rest fun y hy => h y (List.mem_cons_of_mem _ hy)]

/-- Decoding the encoded wire entry of a conforming, non-degenerate
value recovers the value. -/
theorem decodeEntry_encOpt (prop : PropSchema) (v : ParamVal)
    (es : List String) (hm : valMatches prop v = true)
    (hnd : valNonDegenerate v = true) (henc : encOpt v = some es) :
    decodeEntry prop es = toDecoded v := by
  cases v with
  | prim pr =>
    cases prop with
    | array t => simp [valMatches] at hm
    | prim t =>
      obtain rfl : [primToStr pr] = es := by
        simpa [encOpt] using henc
      simp only [decodeEntry, List.head?]
      rw [decodeQueryParam_primToStr t pr (by simpa [valMatches] using hm)
        (by simpa [valNonDegenerate] using hnd)]
      rfl
  | arr ps =>
    cases prop with
    | prim t => simp [valMatches] at hm
    | array t =>
      have hnd2 : (!ps.isEmpty && ps.all primNonEmpty) = true := hnd
      have hemp : ps.isEmpty = false := by
        cases hh : ps.isEmpty
        · rfl
        · rw [hh] at hnd2; simp at hnd2
      have hall' : ps.all primNonEmpty = true := by
        cases hh : ps.all primNonEmpty
        · rw [hh, hemp] at hnd2; simp at hnd2
        · rfl
      obtain rfl : ps.map primToStr = es := by
        simp only [encOpt] at henc
        rw [if_neg (by simp [hemp] : ¬ps.isEmpty = true)] at henc
        injection henc
      have hall : ∀ x ∈ ps, primNonEmpty x = true :=
        fun x hx => List.all_eq_true.mp hall' x hx
      have hmatch : ∀ x ∈ ps, primMatches t x = true := by
        have hm' : ps.all (primMatches t) = true := hm
        exact fun x hx => List.all_eq_true.mp hm' x hx
      simp only [decodeEntry, List.map_map]
      rw [show (decodeQueryParam t ∘ primToStr) =
          fun pr => decodeQueryParam t (primToStr pr) from rfl]
      rw [reduceOption_map_some _ ps fun x hx =>
        decodeQueryParam_primToStr t x (hmatch x hx) (hall x hx)]
      rfl

/-- C6 (amended): for every parameter map `p` conforming to the
method's schema whose string values (including array elements) are
nonempty and whose arrays are nonempty, decoding the query-string
encoding of `p` yields `p` again, key by key, modulo primitive
widening (integers re-parsed from their decimal representation).
Empty strings and empty arrays do not survive the roundtrip (see the
counterexample). -/
theorem c6_roundtrip_amended (defProps : List (String × PropSchema))
    (p : List (String × ParamVal))
    (hdnodup : (defProps.map Prod.fst).Nodup)
    (hpnodup : (p.map Prod.fst).Nodup)
    (hconf : conforms defProps p)
    (hnd : ∀ kv ∈ p, valNonDegenerate kv.2 = true) :
    ∀ k, List.lookup k (decodeQueryParams defProps (encodeQueryParams p)) =
      (List.lookup k p).map toDecoded := by
  intro k
  rw [lookup_decode (encodeQueryParams p) defProps hdnodup k,
    lookup_encode p hpnodup k]
  cases hp : List.lookup k p with
  | none =>
    cases hd : List.lookup k defProps <;> simp
  | some v =>
    have hmem : (k, v) ∈ p := mem_of_lookup k v p hp
    obtain ⟨prop, hprop, hmatch⟩ := hconf (k, v) hmem
    simp only at hprop
    rw [hprop]
    have hv : valNonDegenerate v = true := hnd (k, v) hmem
    cases henc : encOpt v with
    | none =>
      exfalso
      cases v with
      | prim pr => simp [encOpt] at henc
      | arr ps =>
        by_cases hemp : ps.isEmpty
        · have hv2 : (!ps.isEmpty && ps.all primNonEmpty) = true := hv
          rw [hemp] at hv2
          simp at hv2
        · simp only [encOpt] at henc
          rw [if_neg hemp] at henc
          cases henc
    | some es =>
      show Option.map (decodeEntry prop) (encOpt v) = Option.map toDecoded (some v)
      rw [henc]
      show some (decodeEntry prop es) = some (toDecoded v)
      exact congrArg some (decodeEntry_encOpt prop v es hmatch hv henc)

/-- C6 (counterexample): a schema with one string parameter `q` and
the conforming params `{q: ""}`: the decoded map binds `q` to
`undefined` (the decoder's falsiness check), so the roundtrip returns
a different map. -/
theorem c6_empty_string_breaks_roundtrip :
    valMatches (.prim .string) (.prim (.s "")) = true ∧
    List.lookup "q" (decodeQueryParams [("q", .prim .string)]
        (encodeQueryParams [("q", .prim (.s ""))])) = some .undefinedV ∧
    (List.lookup "q" [("q", ParamVal.prim (.s ""))]).map toDecoded =
      some (.primD (.s "")) ∧
    DecodedVal.undefinedV ≠ DecodedVal.primD (.s "") := by
  refine ⟨rfl, ?_, rfl, by decide⟩
  rfl

/-- Witness for `c6_roundtrip_amended`: a two-parameter schema with a
string and an integer array. -/
theorem c6_roundtrip_amended_witness :
    List.lookup "msg" (decodeQueryParams
        [("msg", .prim .string), ("ns", .array .integer)]
        (encodeQueryParams
          [("msg", .prim (.s "hi")), ("ns", .arr [.i 3, .i (-7)])])) =
      (List.lookup "msg"
        [("msg", ParamVal.prim (.s "hi")),
         ("ns", ParamVal.arr [.i 3, .i (-7)])]).map toDecoded := by
  have h := c6_roundtrip_amended
    [("msg", .prim .string), ("ns", .array .integer)]
    [("msg", .prim (.s "hi")), ("ns", .arr [.i 3, .i (-7)])]
    (by decide) (by decide)
    (by
      intro kv hkv
      rcases List.mem_cons.mp hkv with h | h
      · exact ⟨.prim .string, by rw [h]; rfl, by rw [h]; rfl⟩
      · rcases List.mem_cons.mp h with h2 | h2
        · exact ⟨.array .integer, by rw [h2]; rfl, by rw [h2]; rfl⟩
        · cases h2)
    (by
      intro kv hkv
      rcases List.mem_cons.mp hkv with h | h
      · rw [h]; rfl
      · rcases List.mem_cons.mp h with h2 | h2
        · rw [h2]; rfl
        · cases h2)
  exact h "msg"

end QueryParams
